import Mathlib

set_option maxHeartbeats 1000000
set_option maxRecDepth 4000

/-!
Shallow embedding of the risc-v-assembler core (src/main.rs): the regex-driven
line recognizer, the per-mnemonic bit-field encoders, the label-resolution pass
and the padding loop.  Source lines are modelled as lists of characters; the
regexes of the lazy_static block are modelled as deterministic maximal-munch
parsers over those lists (each regex here is a concatenation of character
classes that are pairwise disjoint at every boundary, so maximal munch matches
the backtracking regex semantics); u32 and usize arithmetic is modelled on Nat
with explicit reduction modulo 2^32 and 2^64 where the Rust types wrap, and
every panic site is modelled as an error value.
-/

/-- Whitespace class of the patterns (the regex class \s, restricted to its
ASCII part: space, tab, line feed, vertical tab, form feed, carriage return). -/
def isWs (c : Char) : Bool :=
  c == ' ' || c == '\t' || c == '\n' || c == '\x0b' || c == '\x0c' || c == '\r'

/-- Word-character class of the patterns (the regex class \w, restricted to its
ASCII part: letters, digits and underscore); used by the LAB pattern. -/
def isWordChar (c : Char) : Bool := c.isAlpha || c.isDigit || c == '_'

/-- Greedy match of a (possibly empty) whitespace run. -/
def skipWs (cs : List Char) : List Char := cs.dropWhile isWs

/-- Match of at least one whitespace character followed by a greedy whitespace
run: the pattern fragment demanding one-or-more whitespace after a keyword. -/
def reqWs : List Char → Option (List Char)
  | c :: cs => if isWs c then some (skipWs cs) else none
  | [] => none

/-- Match of one literal character. -/
def expectChar (c : Char) : List Char → Option (List Char)
  | x :: xs => if x = c then some xs else none
  | [] => none

/-- Match of a literal keyword, character by character. -/
def expectStr : List Char → List Char → Option (List Char)
  | [], cs => some cs
  | k :: ks, cs =>
    match expectChar k cs with
    | some r => expectStr ks r
    | none => none

/-- The REG pattern (src/main.rs line 13): optional whitespace, the letter x,
one or more digits, optional whitespace.  The digit group of the source regex
is repeated around a single-character capture, so the reported capture is the
LAST digit only; the returned character reproduces that. -/
def regP (cs : List Char) : Option (Char × List Char) :=
  (expectChar 'x' (skipWs cs)).bind fun r =>
    match (r.takeWhile Char.isDigit).getLast? with
    | some d => some (d, skipWs (r.dropWhile Char.isDigit))
    | none => none

/-- The SEP pattern (src/main.rs line 14): a comma with optional whitespace on
both sides. -/
def sepP (cs : List Char) : Option (List Char) :=
  (expectChar ',' (skipWs cs)).map fun r => skipWs r

/-- The NUM pattern (src/main.rs line 15): optional whitespace, a captured run
of one or more digits, optional whitespace. -/
def numP (cs : List Char) : Option (List Char × List Char) :=
  let r := skipWs cs
  match r.takeWhile Char.isDigit with
  | [] => none
  | ds => some (ds, skipWs (r.dropWhile Char.isDigit))

/-- The LAB pattern (src/main.rs line 16): optional whitespace, a captured run
of one or more word characters, optional whitespace. -/
def labP (cs : List Char) : Option (List Char × List Char) :=
  let r := skipWs cs
  match r.takeWhile isWordChar with
  | [] => none
  | ds => some (ds, skipWs (r.dropWhile isWordChar))

/-- The COM pattern followed by end of line (src/main.rs line 17): optional
whitespace, then either the end of the line or a line comment introduced by two
slashes and running to the end of the line (the regex dot does not cross a line
feed). -/
def comEndP (cs : List Char) : Bool :=
  match skipWs cs with
  | [] => true
  | c1 :: rest =>
    match rest with
    | c2 :: rest2 => c1 == '/' && c2 == '/' && rest2.all (fun c => c != '\n')
    | [] => false

/-- The NOP_REGEX pattern (src/main.rs lines 18-19): nop with optional
surrounding whitespace and an optional trailing comment. -/
def nopRec (cs : List Char) : Bool :=
  match expectStr ['n', 'o', 'p'] (skipWs cs) with
  | some r => comEndP r
  | none => false

/-- The LD_REGEX pattern (src/main.rs lines 20-21): ld, a register, a comma, a
number, a register in parentheses, an optional comment.  Captures are the rd
register digit, the immediate digit run and the rs1 register digit. -/
def ldRec (cs : List Char) : Option (Char × List Char × Char) :=
  (expectStr ['l', 'd'] (skipWs cs)).bind fun r1 =>
  (reqWs r1).bind fun r2 =>
  (regP r2).bind fun p1 =>
  (sepP p1.2).bind fun r3 =>
  (numP r3).bind fun p2 =>
  (expectChar '(' p2.2).bind fun r4 =>
  (regP r4).bind fun p3 =>
  (expectChar ')' p3.2).bind fun r5 =>
  if comEndP r5 then some (p1.1, p2.1, p3.1) else none

/-- The SD_REGEX pattern (src/main.rs lines 22-23), same shape as LD_REGEX;
captures are rs2, the immediate digit run and rs1. -/
def sdRec (cs : List Char) : Option (Char × List Char × Char) :=
  (expectStr ['s', 'd'] (skipWs cs)).bind fun r1 =>
  (reqWs r1).bind fun r2 =>
  (regP r2).bind fun p1 =>
  (sepP p1.2).bind fun r3 =>
  (numP r3).bind fun p2 =>
  (expectChar '(' p2.2).bind fun r4 =>
  (regP r4).bind fun p3 =>
  (expectChar ')' p3.2).bind fun r5 =>
  if comEndP r5 then some (p1.1, p2.1, p3.1) else none

/-- Shared shape of the AND, OR, ADD and SUB patterns (src/main.rs lines
24-31): the keyword, then three comma-separated registers and an optional
comment; captures are the three register digits. -/
def rrrM (kw : List Char) (cs : List Char) : Option (Char × Char × Char) :=
  (expectStr kw (skipWs cs)).bind fun r1 =>
  (reqWs r1).bind fun r2 =>
  (regP r2).bind fun p1 =>
  (sepP p1.2).bind fun r3 =>
  (regP r3).bind fun p2 =>
  (sepP p2.2).bind fun r4 =>
  (regP r4).bind fun p3 =>
  if comEndP p3.2 then some (p1.1, p2.1, p3.1) else none

/-- The AND_REGEX pattern (src/main.rs lines 24-25). -/
def andRec (cs : List Char) : Option (Char × Char × Char) := rrrM ['a', 'n', 'd'] cs

/-- The OR_REGEX pattern (src/main.rs lines 26-27). -/
def orRec (cs : List Char) : Option (Char × Char × Char) := rrrM ['o', 'r'] cs

/-- The ADD_REGEX pattern (src/main.rs lines 28-29). -/
def addRec (cs : List Char) : Option (Char × Char × Char) := rrrM ['a', 'd', 'd'] cs

/-- The SUB_REGEX pattern (src/main.rs lines 30-31). -/
def subRec (cs : List Char) : Option (Char × Char × Char) := rrrM ['s', 'u', 'b'] cs

/-- Shared shape of the BEQ and BLT patterns (src/main.rs lines 32-35): the
keyword, two comma-separated registers, a label name and an optional comment;
captures are the two register digits and the label name. -/
def brM (kw : List Char) (cs : List Char) : Option (Char × Char × List Char) :=
  (expectStr kw (skipWs cs)).bind fun r1 =>
  (reqWs r1).bind fun r2 =>
  (regP r2).bind fun p1 =>
  (sepP p1.2).bind fun r3 =>
  (regP r3).bind fun p2 =>
  (sepP p2.2).bind fun r4 =>
  (labP r4).bind fun p3 =>
  if comEndP p3.2 then some (p1.1, p2.1, p3.1) else none

/-- The BEQ_REGEX pattern (src/main.rs lines 32-33). -/
def beqRec (cs : List Char) : Option (Char × Char × List Char) := brM ['b', 'e', 'q'] cs

/-- The BLT_REGEX pattern (src/main.rs lines 34-35). -/
def bltRec (cs : List Char) : Option (Char × Char × List Char) := brM ['b', 'l', 't'] cs

/-- The LABEL_REGEX pattern (src/main.rs lines 36-37): a captured word-character
run, a colon and an optional comment. -/
def labelRec (cs : List Char) : Option (List Char) :=
  (labP cs).bind fun p =>
  (expectChar ':' p.2).bind fun r =>
  if comEndP r then some p.1 else none

/-- Numeric value of one digit character. -/
def digitVal (c : Char) : Nat := c.toNat - '0'.toNat

/-- Value of a decimal digit run, most significant digit first (the semantics
of str::parse on an all-digit string). -/
def natOfDigits (ds : List Char) : Nat := ds.foldl (fun acc c => acc * 10 + digitVal c) 0

/-- Checked u32 conversion of a captured digit run: str::parse::\<u32>
fails (and the unwrap at src/main.rs line 115 panics) when the value exceeds
the u32 range. -/
def u32parse (ds : List Char) : Option Nat :=
  if natOfDigits ds < 2 ^ 32 then some (natOfDigits ds) else none

/-- Word built by parse_ld (src/main.rs lines 112-127): opcode 0000011, rd at
bit 7, funct3 011 at bit 12, rs1 at bit 15, the immediate at bit 20; u32 shifts
discard bits above bit 31. -/
def ld_word (rd imm rs1 : Nat) : Nat :=
  (0b0000011 ||| rd <<< 7 ||| 0b011 <<< 12 ||| rs1 <<< 15 ||| imm <<< 20) % 2 ^ 32

/-- Word built by parse_sd (src/main.rs lines 129-145): opcode 0100011, the low
five immediate bits at bit 7, funct3 011 at bit 12, rs1 at bit 15, rs2 at bit
20, immediate bits 5-11 shifted to bits 25-31. -/
def sd_word (rs2 imm rs1 : Nat) : Nat :=
  (0b0100011 ||| (imm &&& 0b11111) <<< 7 ||| 0b011 <<< 12 ||| rs1 <<< 15 |||
    rs2 <<< 20 ||| (imm &&& 0b111111100000) <<< 20) % 2 ^ 32

/-- Word built by parse_and (src/main.rs lines 147-162): opcode 0110011, funct3
111. -/
def and_word (rd rs1 rs2 : Nat) : Nat :=
  (0b0110011 ||| rd <<< 7 ||| 0b111 <<< 12 ||| rs1 <<< 15 ||| rs2 <<< 20) % 2 ^ 32

/-- Word built by parse_or (src/main.rs lines 164-179): opcode 0110011, funct3
110. -/
def or_word (rd rs1 rs2 : Nat) : Nat :=
  (0b0110011 ||| rd <<< 7 ||| 0b110 <<< 12 ||| rs1 <<< 15 ||| rs2 <<< 20) % 2 ^ 32

/-- Word built by parse_add (src/main.rs lines 181-195): opcode 0110011, funct3
and funct7 all zero. -/
def add_word (rd rs1 rs2 : Nat) : Nat :=
  (0b0110011 ||| rd <<< 7 ||| rs1 <<< 15 ||| rs2 <<< 20) % 2 ^ 32

/-- Word built by parse_sub (src/main.rs lines 197-212): like add, with bit 30
of funct7 set. -/
def sub_word (rd rs1 rs2 : Nat) : Nat :=
  (0b0110011 ||| rd <<< 7 ||| rs1 <<< 15 ||| rs2 <<< 20 ||| 1 <<< 30) % 2 ^ 32

/-- Partial word built by parse_beq (src/main.rs lines 214-227): opcode
1100011, rs1 at bit 15, rs2 at bit 20, immediate bits left zero. -/
def beq_word (rs1 rs2 : Nat) : Nat :=
  (0b1100011 ||| rs1 <<< 15 ||| rs2 <<< 20) % 2 ^ 32

/-- Partial word built by parse_blt (src/main.rs lines 229-243): like beq with
funct3 100. -/
def blt_word (rs1 rs2 : Nat) : Nat :=
  (0b1100011 ||| 0b100 <<< 12 ||| rs1 <<< 15 ||| rs2 <<< 20) % 2 ^ 32

/-- Fatal failure modes of an assembler run; each constructor stands for one
panic site of src/main.rs: the unrecognized-line panic at line 83, the
undefined-label panic at line 262, a str::parse::\<u32> unwrap failure on an
oversized immediate literal, and the try_into::\<u32> unwrap failure at line
255 of transform_labels. -/
inductive AsmError where
  | invalidInstruction (line : List Char)
  | invalidLabel (name : List Char)
  | numOverflow
  | offsetOverflow
deriving DecidableEq

/-- Lookup in the label table.  The table is the list of HashMap inserts most
recent first, so the scan from the head realizes the last-write-wins semantics
of HashMap::insert. -/
def lookupLabel : List (List Char × Nat) → List Char → Option Nat
  | [], _ => none
  | (k, v) :: rest, name => if k = name then some v else lookupLabel rest name

/-- Wrapping subtraction on usize (release-mode semantics of j - i at
src/main.rs line 255). -/
def usizeSub (a b : Nat) : Nat := (a % 2 ^ 64 + (2 ^ 64 - b % 2 ^ 64)) % 2 ^ 64

/-- One step of transform_labels (src/main.rs lines 252-266): a word with no
label reference passes through unchanged; a branch looks its label up (a
missing key is the Invalid Label panic), computes (j - i) * 4 in usize
arithmetic, converts it to u32 with try_into (whose unwrap panics when the
value does not fit, which happens for every backward reference), and splices
the four immediate bit groups into the word. -/
def resolveStep (labels : List (List Char × Nat)) (i : Nat) (inst : Nat) :
    Option (List Char) → Except AsmError Nat
  | none => .ok inst
  | some lbl =>
    match lookupLabel labels lbl with
    | none => .error (.invalidLabel lbl)
    | some j =>
      if usizeSub j i * 4 % 2 ^ 64 < 2 ^ 32 then
        .ok (inst ||| (usizeSub j i * 4 % 2 ^ 64 &&& 0b11110) <<< 7
                  ||| (usizeSub j i * 4 % 2 ^ 64 &&& 0b11111100000) <<< 20
                  ||| (usizeSub j i * 4 % 2 ^ 64 &&& 0b100000000000) >>> 4
                  ||| (usizeSub j i * 4 % 2 ^ 64 &&& 0b1000000000000) <<< 19)
      else .error .offsetOverflow

/-- Resolution of a suffix of the instruction list starting at index i,
aborting at the first failing step (a panic aborts the whole run). -/
def transformFrom (labels : List (List Char × Nat)) (i : Nat) :
    List (Nat × Option (List Char)) → Except AsmError (List Nat)
  | [] => .ok []
  | (inst, lbl) :: rest =>
    match resolveStep labels i inst lbl with
    | .error e => .error e
    | .ok w =>
      match transformFrom labels (i + 1) rest with
      | .error e => .error e
      | .ok ws => .ok (w :: ws)

/-- The transform_labels pass (src/main.rs lines 245-269). -/
def transform_labels (insts : List (Nat × Option (List Char)))
    (labels : List (List Char × Nat)) : Except AsmError (List Nat) :=
  transformFrom labels 0 insts

/-- Trimming of a raw source line (str::trim before classification,
src/main.rs line 59). -/
def trim (cs : List Char) : List Char :=
  ((cs.dropWhile isWs).reverse.dropWhile isWs).reverse

/-- One iteration of the recognizer loop of main (src/main.rs lines 58-85):
trim the line, skip it when empty or a full-line comment, otherwise try the ten
patterns in order, extending the instruction list or the label table; a line
matching no pattern is the Invalid Instruction panic carrying the trimmed line
text. -/
def processLine (insts : List (Nat × Option (List Char)))
    (labels : List (List Char × Nat)) (rawLine : List Char) :
    Except AsmError (List (Nat × Option (List Char)) × List (List Char × Nat)) :=
  let line := trim rawLine
  if line.isEmpty then .ok (insts, labels)
  else if line.take 2 = ['/', '/'] then .ok (insts, labels)
  else if nopRec line then .ok (insts ++ [(0, none)], labels)
  else match ldRec line with
  | some (rd, imm, rs1) =>
    match u32parse imm with
    | some immv => .ok (insts ++ [(ld_word (digitVal rd) immv (digitVal rs1), none)], labels)
    | none => .error .numOverflow
  | none =>
  match sdRec line with
  | some (rs2, imm, rs1) =>
    match u32parse imm with
    | some immv => .ok (insts ++ [(sd_word (digitVal rs2) immv (digitVal rs1), none)], labels)
    | none => .error .numOverflow
  | none =>
  match andRec line with
  | some (rd, rs1, rs2) =>
    .ok (insts ++ [(and_word (digitVal rd) (digitVal rs1) (digitVal rs2), none)], labels)
  | none =>
  match orRec line with
  | some (rd, rs1, rs2) =>
    .ok (insts ++ [(or_word (digitVal rd) (digitVal rs1) (digitVal rs2), none)], labels)
  | none =>
  match addRec line with
  | some (rd, rs1, rs2) =>
    .ok (insts ++ [(add_word (digitVal rd) (digitVal rs1) (digitVal rs2), none)], labels)
  | none =>
  match subRec line with
  | some (rd, rs1, rs2) =>
    .ok (insts ++ [(sub_word (digitVal rd) (digitVal rs1) (digitVal rs2), none)], labels)
  | none =>
  match beqRec line with
  | some (rs1, rs2, lbl) =>
    .ok (insts ++ [(beq_word (digitVal rs1) (digitVal rs2), some lbl)], labels)
  | none =>
  match bltRec line with
  | some (rs1, rs2, lbl) =>
    .ok (insts ++ [(blt_word (digitVal rs1) (digitVal rs2), some lbl)], labels)
  | none =>
  match labelRec line with
  | some name => .ok (insts, (name, insts.length) :: labels)
  | none => .error (.invalidInstruction line)

/-- The full first pass of main over the source lines, threading the
instruction list and the label table and aborting at the first panic. -/
def firstPass : List (List Char) → List (Nat × Option (List Char)) →
    List (List Char × Nat) →
    Except AsmError (List (Nat × Option (List Char)) × List (List Char × Nat))
  | [], insts, labels => .ok (insts, labels)
  | l :: rest, insts, labels =>
    match processLine insts labels l with
    | .error e => .error e
    | .ok (i2, l2) => firstPass rest i2 l2

/-- The padding loop of main (src/main.rs lines 93-95): push zero words while
the instruction count is below the requested size. -/
def padLoop (ws : List Nat) (size : Nat) : List Nat :=
  if ws.length < size then padLoop (ws ++ [0]) size else ws
termination_by size - ws.length
decreasing_by simp only [List.length_append, List.length_cons, List.length_nil]; omega

/-- The padding warning condition of main (src/main.rs lines 90-92): the
warning is printed when the requested size is below the instruction count. -/
def padWarning (ws : List Nat) (size : Nat) : Bool := size < ws.length

/-- The whole pipeline of main on an already line-split source: first pass,
label resolution, optional padding.  An error value models a panic, which
aborts the process before any output word is written. -/
def assemble (srcLines : List (List Char)) (padding : Option Nat) :
    Except AsmError (List Nat) :=
  match firstPass srcLines [] [] with
  | .error e => .error e
  | .ok (insts, labels) =>
    match transform_labels insts labels with
    | .error e => .error e
    | .ok ws =>
      .ok (match padding with
           | none => ws
           | some size => padLoop ws size)

/-- Reconstruction of a branch immediate from the four scrambled bit groups of
a resolved word, following the layout of spec section 4.2: word bits 8-11 are
immediate bits 1-4, word bits 25-30 are immediate bits 5-10, word bit 7 is
immediate bit 11 and word bit 31 is immediate bit 12. -/
def b_imm_decode (w : Nat) : Nat :=
  w / 2 ^ 8 % 16 * 2 + w / 2 ^ 25 % 64 * 32 + w / 2 ^ 7 % 2 * 2 ^ 11 +
    w / 2 ^ 31 % 2 * 2 ^ 12

/-- The ten pattern outcomes on one line, in the order tried by main. -/
def matchBools (cs : List Char) : List Bool :=
  [nopRec cs, (ldRec cs).isSome, (sdRec cs).isSome, (andRec cs).isSome, (orRec cs).isSome,
   (addRec cs).isSome, (subRec cs).isSome, (beqRec cs).isSome, (bltRec cs).isSome,
   (labelRec cs).isSome]

/-- Number of the ten patterns matching one line. -/
def matchCount (cs : List Char) : Nat := (matchBools cs).count true

/-- Leading word token of a line: the maximal word-character run after the
leading whitespace. -/
def leadTokOf (cs : List Char) : List Char := (skipWs cs).takeWhile isWordChar

/-- Rest of a line after its leading word token and any following whitespace. -/
def afterTokOf (cs : List Char) : List Char :=
  skipWs ((skipWs cs).dropWhile isWordChar)

/-- Dividing by a power of two shifts the bit index. -/
theorem testBit_div_pow (x n i : Nat) : (x / 2 ^ n).testBit i = x.testBit (n + i) := by
  induction n generalizing x with
  | zero => simp
  | succ k ih =>
    have h1 : x / 2 ^ (k + 1) = x / 2 / 2 ^ k := by
      rw [Nat.div_div_eq_div_mul]
      congr 1
      rw [pow_succ]
      ring
    rw [h1, ih, Nat.testBit_div_two]
    congr 1
    omega

/-- Bits below position k of a + c * 2 ^ k are the bits of a, provided a < 2 ^ k. -/
theorem testBit_add_mul_low (a c k i : Nat) (ha : a < 2 ^ k) (hik : i < k) :
    (a + c * 2 ^ k).testBit i = a.testBit i := by
  rw [Nat.testBit_to_div_mod, Nat.testBit_to_div_mod]
  have hsplit : (2 : Nat) ^ k = 2 ^ (k - i) * 2 ^ i := by
    rw [← pow_add]
    congr 1
    omega
  have hdiv : (a + c * 2 ^ k) / 2 ^ i = a / 2 ^ i + c * 2 ^ (k - i) := by
    rw [hsplit, ← Nat.mul_assoc, Nat.add_mul_div_right _ _ (Nat.pos_pow_of_pos i (by omega))]
  obtain ⟨m, hm⟩ : ∃ m, 2 ^ (k - i) = 2 * m :=
    ⟨2 ^ (k - i - 1), by rw [← pow_succ']; congr 1; omega⟩
  rw [hdiv, hm]
  have h2 : c * (2 * m) = 2 * (c * m) := by ring
  rw [h2]
  have h3 : (a / 2 ^ i + 2 * (c * m)) % 2 = a / 2 ^ i % 2 := by omega
  rw [h3]

/-- Bits at or above position k of a + c * 2 ^ k are the bits of c, provided
a < 2 ^ k. -/
theorem testBit_add_mul_high (a c k i : Nat) (ha : a < 2 ^ k) (hik : k ≤ i) :
    (a + c * 2 ^ k).testBit i = c.testBit (i - k) := by
  rw [Nat.testBit_to_div_mod, Nat.testBit_to_div_mod]
  have hdiv : (a + c * 2 ^ k) / 2 ^ i = c / 2 ^ (i - k) := by
    have hsplit : (2 : Nat) ^ i = 2 ^ k * 2 ^ (i - k) := by
      rw [← pow_add]
      congr 1
      omega
    rw [hsplit, ← Nat.div_div_eq_div_mul,
      Nat.add_mul_div_right _ _ (Nat.pos_pow_of_pos k (by omega)),
      Nat.div_eq_of_lt ha, Nat.zero_add]
  rw [hdiv]

/-- Bitwise or distributes over a split into a low chunk below 2 ^ k and a high
multiple of 2 ^ k. -/
theorem lor_chunk (a b c d k : Nat) (ha : a < 2 ^ k) (hb : b < 2 ^ k) :
    (a + c * 2 ^ k) ||| (b + d * 2 ^ k) = (a ||| b) + (c ||| d) * 2 ^ k := by
  apply Nat.eq_of_testBit_eq
  intro i
  rcases Nat.lt_or_ge i k with h | h
  · rw [Nat.testBit_lor, testBit_add_mul_low a c k i ha h,
      testBit_add_mul_low b d k i hb h,
      testBit_add_mul_low (a ||| b) (c ||| d) k i (Nat.or_lt_two_pow ha hb) h,
      Nat.testBit_lor]
  · rw [Nat.testBit_lor, testBit_add_mul_high a c k i ha h,
      testBit_add_mul_high b d k i hb h,
      testBit_add_mul_high (a ||| b) (c ||| d) k i (Nat.or_lt_two_pow ha hb) h,
      Nat.testBit_lor]

/-- Bitwise or with a multiple of 2 ^ k is addition when the other operand is
below 2 ^ k; stated with an explicit numeral m for the power. -/
theorem lor_mul_eq_add (a d m k : Nat) (hm : 2 ^ k = m) (ha : a < m) :
    a ||| d * m = a + d * m := by
  subst hm
  have := lor_chunk a 0 0 d k ha (Nat.pos_pow_of_pos k (by omega))
  simpa using this

/-- Shifting left by k multiplies by the numeral m = 2 ^ k. -/
theorem shiftl_eq_mul (a k m : Nat) (hm : 2 ^ k = m) : a <<< k = a * m := by
  rw [Nat.shiftLeft_eq, hm]

/-- Masking with the constant 2 ^ a * (2 ^ b - 1) extracts bits a to a+b-1. -/
theorem land_mask (x a b : Nat) : x &&& 2 ^ a * (2 ^ b - 1) = x / 2 ^ a % 2 ^ b * 2 ^ a := by
  apply Nat.eq_of_testBit_eq
  intro i
  rw [Nat.testBit_land]
  rcases Nat.lt_or_ge i a with h | h
  · have h1 : (2 ^ a * (2 ^ b - 1)).testBit i = false := by
      rw [Nat.mul_comm, ← Nat.shiftLeft_eq, Nat.testBit_shiftLeft]
      simp [Nat.not_le.mpr h]
    have h2 : (x / 2 ^ a % 2 ^ b * 2 ^ a).testBit i = false := by
      rw [← Nat.shiftLeft_eq, Nat.testBit_shiftLeft]
      simp [Nat.not_le.mpr h]
    simp [h1, h2]
  · have h1 : (2 ^ a * (2 ^ b - 1)).testBit i = decide (i - a < b) := by
      rw [Nat.mul_comm, ← Nat.shiftLeft_eq, Nat.testBit_shiftLeft,
        Nat.testBit_two_pow_sub_one]
      simp [h]
    have h2 : (x / 2 ^ a % 2 ^ b * 2 ^ a).testBit i = (decide (i - a < b) && x.testBit i) := by
      rw [← Nat.shiftLeft_eq, Nat.testBit_shiftLeft, Nat.testBit_mod_two_pow, testBit_div_pow]
      have hh : a + (i - a) = i := by omega
      simp [h, hh]
    rw [h1, h2, Bool.and_comm]

/-- Numeral form of lor_chunk. -/
theorem lor_chunk_num (a b c d m k : Nat) (hm : 2 ^ k = m) (ha : a < m) (hb : b < m) :
    (a + c * m) ||| (b + d * m) = (a ||| b) + (c ||| d) * m := by
  subst hm
  exact lor_chunk a b c d k ha hb

/-- The ld encoding as a plain sum for in-range operands. -/
theorem ld_word_eq (rd imm rs1 : Nat) (h1 : rd < 32) (h2 : imm < 4096) (h3 : rs1 < 32) :
    ld_word rd imm rs1 = 3 + rd * 128 + 12288 + rs1 * 32768 + imm * 1048576 := by
  unfold ld_word
  rw [shiftl_eq_mul rd 7 128 (by norm_num), shiftl_eq_mul 3 12 4096 (by norm_num),
    shiftl_eq_mul rs1 15 32768 (by norm_num), shiftl_eq_mul imm 20 1048576 (by norm_num)]
  rw [lor_mul_eq_add 3 rd 128 7 (by norm_num) (by omega)]
  rw [lor_mul_eq_add _ 3 4096 12 (by norm_num) (by omega)]
  rw [lor_mul_eq_add _ rs1 32768 15 (by norm_num) (by omega)]
  rw [lor_mul_eq_add _ imm 1048576 20 (by norm_num) (by omega)]
  rw [Nat.mod_eq_of_lt (by omega)]

/-- The sd encoding as a plain sum for in-range operands. -/
theorem sd_word_eq (rs2 imm rs1 : Nat) (h1 : rs2 < 32) (h2 : imm < 4096) (h3 : rs1 < 32) :
    sd_word rs2 imm rs1 =
      35 + imm % 32 * 128 + 12288 + rs1 * 32768 + rs2 * 1048576 +
        imm / 32 % 128 * 33554432 := by
  unfold sd_word
  have hm1 : imm &&& 31 = imm % 32 := by
    have h := land_mask imm 0 5
    norm_num at h
    exact h
  have hm2 : imm &&& 4064 = imm / 32 % 128 * 32 := by
    have h := land_mask imm 5 7
    norm_num at h
    exact h
  rw [show (0b11111 : Nat) = 31 from rfl, show (0b111111100000 : Nat) = 4064 from rfl,
    hm1, hm2]
  rw [shiftl_eq_mul (imm % 32) 7 128 (by norm_num), shiftl_eq_mul 3 12 4096 (by norm_num),
    shiftl_eq_mul rs1 15 32768 (by norm_num), shiftl_eq_mul rs2 20 1048576 (by norm_num),
    shiftl_eq_mul (imm / 32 % 128 * 32) 20 1048576 (by norm_num)]
  rw [show imm / 32 % 128 * 32 * 1048576 = imm / 32 % 128 * 33554432 by ring]
  rw [lor_mul_eq_add 35 (imm % 32) 128 7 (by norm_num) (by omega)]
  rw [lor_mul_eq_add _ 3 4096 12 (by norm_num) (by omega)]
  rw [lor_mul_eq_add _ rs1 32768 15 (by norm_num) (by omega)]
  rw [lor_mul_eq_add _ rs2 1048576 20 (by norm_num) (by omega)]
  rw [lor_mul_eq_add _ (imm / 32 % 128) 33554432 25 (by norm_num) (by omega)]
  rw [Nat.mod_eq_of_lt (by omega)]

/-- The and encoding as a plain sum for in-range operands. -/
theorem and_word_eq (rd rs1 rs2 : Nat) (h1 : rd < 32) (h2 : rs1 < 32) (h3 : rs2 < 32) :
    and_word rd rs1 rs2 = 51 + rd * 128 + 28672 + rs1 * 32768 + rs2 * 1048576 := by
  unfold and_word
  rw [shiftl_eq_mul rd 7 128 (by norm_num), shiftl_eq_mul 7 12 4096 (by norm_num),
    shiftl_eq_mul rs1 15 32768 (by norm_num), shiftl_eq_mul rs2 20 1048576 (by norm_num)]
  rw [lor_mul_eq_add 51 rd 128 7 (by norm_num) (by omega)]
  rw [lor_mul_eq_add _ 7 4096 12 (by norm_num) (by omega)]
  rw [lor_mul_eq_add _ rs1 32768 15 (by norm_num) (by omega)]
  rw [lor_mul_eq_add _ rs2 1048576 20 (by norm_num) (by omega)]
  rw [Nat.mod_eq_of_lt (by omega)]

/-- The or encoding as a plain sum for in-range operands. -/
theorem or_word_eq (rd rs1 rs2 : Nat) (h1 : rd < 32) (h2 : rs1 < 32) (h3 : rs2 < 32) :
    or_word rd rs1 rs2 = 51 + rd * 128 + 24576 + rs1 * 32768 + rs2 * 1048576 := by
  unfold or_word
  rw [shiftl_eq_mul rd 7 128 (by norm_num), shiftl_eq_mul 6 12 4096 (by norm_num),
    shiftl_eq_mul rs1 15 32768 (by norm_num), shiftl_eq_mul rs2 20 1048576 (by norm_num)]
  rw [lor_mul_eq_add 51 rd 128 7 (by norm_num) (by omega)]
  rw [lor_mul_eq_add _ 6 4096 12 (by norm_num) (by omega)]
  rw [lor_mul_eq_add _ rs1 32768 15 (by norm_num) (by omega)]
  rw [lor_mul_eq_add _ rs2 1048576 20 (by norm_num) (by omega)]
  rw [Nat.mod_eq_of_lt (by omega)]

/-- The add encoding as a plain sum for in-range operands. -/
theorem add_word_eq (rd rs1 rs2 : Nat) (h1 : rd < 32) (h2 : rs1 < 32) (h3 : rs2 < 32) :
    add_word rd rs1 rs2 = 51 + rd * 128 + rs1 * 32768 + rs2 * 1048576 := by
  unfold add_word
  rw [shiftl_eq_mul rd 7 128 (by norm_num),
    shiftl_eq_mul rs1 15 32768 (by norm_num), shiftl_eq_mul rs2 20 1048576 (by norm_num)]
  rw [lor_mul_eq_add 51 rd 128 7 (by norm_num) (by omega)]
  rw [lor_mul_eq_add _ rs1 32768 15 (by norm_num) (by omega)]
  rw [lor_mul_eq_add _ rs2 1048576 20 (by norm_num) (by omega)]
  rw [Nat.mod_eq_of_lt (by omega)]

/-- The sub encoding as a plain sum for in-range operands. -/
theorem sub_word_eq (rd rs1 rs2 : Nat) (h1 : rd < 32) (h2 : rs1 < 32) (h3 : rs2 < 32) :
    sub_word rd rs1 rs2 = 51 + rd * 128 + rs1 * 32768 + rs2 * 1048576 + 1073741824 := by
  unfold sub_word
  rw [shiftl_eq_mul rd 7 128 (by norm_num),
    shiftl_eq_mul rs1 15 32768 (by norm_num), shiftl_eq_mul rs2 20 1048576 (by norm_num),
    shiftl_eq_mul 1 30 1073741824 (by norm_num)]
  rw [lor_mul_eq_add 51 rd 128 7 (by norm_num) (by omega)]
  rw [lor_mul_eq_add _ rs1 32768 15 (by norm_num) (by omega)]
  rw [lor_mul_eq_add _ rs2 1048576 20 (by norm_num) (by omega)]
  rw [lor_mul_eq_add _ 1 1073741824 30 (by norm_num) (by omega)]
  rw [Nat.mod_eq_of_lt (by omega)]

/-- The beq partial encoding as a plain sum for in-range operands. -/
theorem beq_word_eq (rs1 rs2 : Nat) (h1 : rs1 < 32) (h2 : rs2 < 32) :
    beq_word rs1 rs2 = 99 + rs1 * 32768 + rs2 * 1048576 := by
  unfold beq_word
  rw [shiftl_eq_mul rs1 15 32768 (by norm_num), shiftl_eq_mul rs2 20 1048576 (by norm_num)]
  rw [lor_mul_eq_add 99 rs1 32768 15 (by norm_num) (by omega)]
  rw [lor_mul_eq_add _ rs2 1048576 20 (by norm_num) (by omega)]
  rw [Nat.mod_eq_of_lt (by omega)]

/-- The blt partial encoding as a plain sum for in-range operands. -/
theorem blt_word_eq (rs1 rs2 : Nat) (h1 : rs1 < 32) (h2 : rs2 < 32) :
    blt_word rs1 rs2 = 99 + 16384 + rs1 * 32768 + rs2 * 1048576 := by
  unfold blt_word
  rw [shiftl_eq_mul 4 12 4096 (by norm_num),
    shiftl_eq_mul rs1 15 32768 (by norm_num), shiftl_eq_mul rs2 20 1048576 (by norm_num)]
  rw [lor_mul_eq_add 99 4 4096 12 (by norm_num) (by omega)]
  rw [lor_mul_eq_add _ rs1 32768 15 (by norm_num) (by omega)]
  rw [lor_mul_eq_add _ rs2 1048576 20 (by norm_num) (by omega)]
  rw [Nat.mod_eq_of_lt (by omega)]

/-- Splicing the four immediate bit groups into a word only rewrites bits 7-11
and 25-31: the result decomposes into the untouched low seven bits, an or on
bits 7-11, the untouched bits 12-24, and an or on bits 25 and up. -/
theorem splice_sum (inst b1 b2 b3 b4 : Nat) (h1 : b1 < 16) (h2 : b2 < 64)
    (h3 : b3 < 2) (h4 : b4 < 2) :
    inst ||| (b3 * 128 + b1 * 256 + (b2 + 64 * b4) * 33554432) =
      inst % 128 + (inst / 128 % 32 ||| (b3 + 2 * b1)) * 128 +
        inst / 4096 % 8192 * 4096 +
        (inst / 4096 / 8192 ||| (b2 + 64 * b4)) * 33554432 := by
  have s1 : inst ||| (b3 * 128 + b1 * 256 + (b2 + 64 * b4) * 33554432) =
      (inst % 128 + inst / 128 * 128) |||
        (0 + (b3 + 2 * b1 + (b2 + 64 * b4) * 262144) * 128) := by
    congr 1
    · omega
    · ring
  have c1 := lor_chunk_num (inst % 128) 0 (inst / 128)
    (b3 + 2 * b1 + (b2 + 64 * b4) * 262144) 128 7 (by norm_num) (by omega) (by omega)
  have s2 : inst / 128 ||| (b3 + 2 * b1 + (b2 + 64 * b4) * 262144) =
      (inst / 128 % 32 + inst / 128 / 32 * 32) |||
        ((b3 + 2 * b1) + ((b2 + 64 * b4) * 8192) * 32) := by
    congr 1
    · omega
    · ring
  have c2 := lor_chunk_num (inst / 128 % 32) (b3 + 2 * b1) (inst / 128 / 32)
    ((b2 + 64 * b4) * 8192) 32 5 (by norm_num) (by omega) (by omega)
  have s3 : inst / 128 / 32 ||| (b2 + 64 * b4) * 8192 =
      (inst / 128 / 32 % 8192 + inst / 128 / 32 / 8192 * 8192) |||
        (0 + (b2 + 64 * b4) * 8192) := by
    congr 1
    · omega
    · ring
  have c3 := lor_chunk_num (inst / 128 / 32 % 8192) 0 (inst / 128 / 32 / 8192)
    (b2 + 64 * b4) 8192 13 (by norm_num) (by omega) (by omega)
  have e1 : inst / 128 / 32 = inst / 4096 := by
    rw [Nat.div_div_eq_div_mul]
  rw [s1, c1, s2, c2, s3, c3, e1]
  simp only [Nat.or_zero, Nat.zero_or]
  ring

/-- Wrapping usize subtraction agrees with truncated subtraction for in-range
forward distances. -/
theorem usizeSub_of_le (i j : Nat) (hij : i ≤ j) (hj : j < 2 ^ 64) :
    usizeSub j i = j - i := by
  unfold usizeSub
  omega


/-- Splicing the four masked-and-shifted immediate groups of transform_labels
into a word, written as a plain sum exposing which bits change. -/
theorem splice_decomp (inst imm : Nat) :
    inst ||| (imm &&& 0b11110) <<< 7 ||| (imm &&& 0b11111100000) <<< 20
        ||| (imm &&& 0b100000000000) >>> 4 ||| (imm &&& 0b1000000000000) <<< 19 =
      inst % 128 +
        (inst / 128 % 32 ||| (imm / 2048 % 2 + 2 * (imm / 2 % 16))) * 128 +
        inst / 4096 % 8192 * 4096 +
        (inst / 4096 / 8192 ||| (imm / 32 % 64 + 64 * (imm / 4096 % 2))) * 33554432 := by
  have q1 : imm &&& 30 = imm / 2 % 16 * 2 := by
    have h := land_mask (imm) 1 4
    norm_num at h
    exact h
  have q2 : imm &&& 2016 = imm / 32 % 64 * 32 := by
    have h := land_mask (imm) 5 6
    norm_num at h
    exact h
  have q3 : imm &&& 2048 = imm / 2048 % 2 * 2048 := by
    have h := land_mask (imm) 11 1
    norm_num at h
    exact h
  have q4 : imm &&& 4096 = imm / 4096 % 2 * 4096 := by
    have h := land_mask (imm) 12 1
    norm_num at h
    exact h
  rw [show (0b11110 : Nat) = 30 from rfl, show (0b11111100000 : Nat) = 2016 from rfl,
    show (0b100000000000 : Nat) = 2048 from rfl,
    show (0b1000000000000 : Nat) = 4096 from rfl, q1, q2, q3, q4]
  rw [shiftl_eq_mul (imm / 2 % 16 * 2) 7 128 (by norm_num),
    shiftl_eq_mul (imm / 32 % 64 * 32) 20 1048576 (by norm_num),
    Nat.shiftRight_eq_div_pow,
    shiftl_eq_mul (imm / 4096 % 2 * 4096) 19 524288 (by norm_num)]
  rw [show imm / 2 % 16 * 2 * 128 = imm / 2 % 16 * 256 by omega,
    show imm / 32 % 64 * 32 * 1048576 = imm / 32 % 64 * 33554432 by omega,
    show imm / 2048 % 2 * 2048 / 2 ^ 4 = imm / 2048 % 2 * 128 by omega,
    show imm / 4096 % 2 * 4096 * 524288 = imm / 4096 % 2 * 2147483648
      by omega]
  have t1 : imm / 2048 % 2 * 128 ||| imm / 4096 % 2 * 2147483648 =
      imm / 2048 % 2 * 128 + imm / 4096 % 2 * 2147483648 :=
    lor_mul_eq_add _ _ 2147483648 31 (by norm_num) (by omega)
  have t2 : imm / 32 % 64 * 33554432 |||
        (imm / 2048 % 2 * 128 + imm / 4096 % 2 * 2147483648) =
      imm / 2048 % 2 * 128 +
        (imm / 32 % 64 + 64 * (imm / 4096 % 2)) * 33554432 := by
    have c := lor_chunk_num 0 (imm / 2048 % 2 * 128) (imm / 32 % 64)
      (64 * (imm / 4096 % 2)) 33554432 25 (by norm_num) (by omega) (by omega)
    have hor : imm / 32 % 64 ||| 64 * (imm / 4096 % 2) =
        imm / 32 % 64 + 64 * (imm / 4096 % 2) := by
      rw [show 64 * (imm / 4096 % 2) = imm / 4096 % 2 * 64 by omega]
      exact lor_mul_eq_add _ _ 64 6 (by norm_num) (by omega)
    rw [show (0 : Nat) + imm / 32 % 64 * 33554432 =
      imm / 32 % 64 * 33554432 by omega] at c
    rw [show imm / 2048 % 2 * 128 + 64 * (imm / 4096 % 2) * 33554432 =
      imm / 2048 % 2 * 128 + imm / 4096 % 2 * 2147483648 by omega] at c
    rw [c, Nat.zero_or, hor]
  have t3 : imm / 2 % 16 * 256 |||
        (imm / 2048 % 2 * 128 +
          (imm / 32 % 64 + 64 * (imm / 4096 % 2)) * 33554432) =
      imm / 2048 % 2 * 128 + imm / 2 % 16 * 256 +
        (imm / 32 % 64 + 64 * (imm / 4096 % 2)) * 33554432 := by
    have c := lor_chunk_num (imm / 2 % 16 * 256) (imm / 2048 % 2 * 128) 0
      (imm / 32 % 64 + 64 * (imm / 4096 % 2)) 33554432 25
      (by norm_num) (by omega) (by omega)
    have hor : imm / 2 % 16 * 256 ||| imm / 2048 % 2 * 128 =
        imm / 2048 % 2 * 128 + imm / 2 % 16 * 256 := by
      rw [Nat.lor_comm]
      have h := lor_mul_eq_add (imm / 2048 % 2 * 128) (imm / 2 % 16) 256 8
        (by norm_num) (by omega)
      rw [h]
    rw [show imm / 2 % 16 * 256 + 0 * 33554432 =
      imm / 2 % 16 * 256 by omega] at c
    rw [c, Nat.zero_or, hor]
  rw [Nat.lor_assoc, Nat.lor_assoc, Nat.lor_assoc, t1, t2, t3]
  exact splice_sum inst (imm / 2 % 16) (imm / 32 % 64)
    (imm / 2048 % 2) (imm / 4096 % 2)
    (by omega) (by omega) (by omega) (by omega)


/-- Resolution of a forward, in-range branch reference: the lookup succeeds,
the try_into conversion succeeds, and the resolved word decomposes into the
untouched bits 0-6 and 12-24 of the input word and the or of the four spliced
immediate groups onto bits 7-11 and 25-31, with imm = (j - i) * 4. -/
theorem resolveStep_forward (labels : List (List Char × Nat)) (i j inst : Nat)
    (lbl : List Char) (hl : lookupLabel labels lbl = some j) (hij : i ≤ j)
    (hj : j < 2 ^ 64) (hfit : (j - i) * 4 < 2 ^ 32) :
    resolveStep labels i inst (some lbl) =
      .ok (inst % 128 +
        (inst / 128 % 32 |||
          ((j - i) * 4 / 2048 % 2 + 2 * ((j - i) * 4 / 2 % 16))) * 128 +
        inst / 4096 % 8192 * 4096 +
        (inst / 4096 / 8192 |||
          ((j - i) * 4 / 32 % 64 + 64 * ((j - i) * 4 / 4096 % 2))) * 33554432) := by
  have husize : usizeSub j i = j - i := usizeSub_of_le i j hij hj
  have hmod : (j - i) * 4 % 2 ^ 64 = (j - i) * 4 := Nat.mod_eq_of_lt (by omega)
  simp only [resolveStep, hl, husize, hmod]
  rw [if_pos hfit]
  congr 1
  exact splice_decomp inst ((j - i) * 4)

/-- Resolution of a concatenation: the suffix is only reached when the whole
prefix resolves, and then starts at the index following the prefix. -/
theorem transformFrom_append (labels : List (List Char × Nat))
    (as bs : List (Nat × Option (List Char))) (i : Nat) :
    transformFrom labels i (as ++ bs) =
      match transformFrom labels i as with
      | .error e => .error e
      | .ok ws =>
        match transformFrom labels (i + as.length) bs with
        | .error e => .error e
        | .ok ws2 => .ok (ws ++ ws2) := by
  induction as generalizing i with
  | nil =>
    simp only [List.nil_append, transformFrom, List.length_nil, Nat.add_zero]
    cases h : transformFrom labels i bs <;> simp
  | cons p tl ih =>
    obtain ⟨w, lbl⟩ := p
    simp only [List.cons_append, transformFrom]
    cases h : resolveStep labels i w lbl with
    | error e => rfl
    | ok v =>
      dsimp only [List.append_eq]
      rw [ih (i + 1)]
      simp only [List.length_cons]
      rw [show i + 1 + tl.length = i + (tl.length + 1) by omega]
      cases h2 : transformFrom labels (i + 1) tl with
      | error e => rfl
      | ok ws =>
        cases h3 : transformFrom labels (i + (tl.length + 1)) bs with
        | error e => rfl
        | ok ws2 => rfl

/-- First pass of a concatenation of line lists: the suffix runs on the state
left by the prefix, and a prefix failure is the failure of the whole pass. -/
theorem firstPass_append (as bs : List (List Char))
    (insts : List (Nat × Option (List Char))) (labels : List (List Char × Nat)) :
    firstPass (as ++ bs) insts labels =
      match firstPass as insts labels with
      | .error e => .error e
      | .ok (i2, l2) => firstPass bs i2 l2 := by
  induction as generalizing insts labels with
  | nil => simp [firstPass]
  | cons l tl ih =>
    simp only [List.cons_append, firstPass]
    cases h : processLine insts labels l with
    | error e => rfl
    | ok st =>
      obtain ⟨i2, l2⟩ := st
      exact ih i2 l2

/-- The padding loop appends exactly the number of zero words missing from the
requested size (and nothing when the list is already long enough). -/
theorem padLoop_eq (k : Nat) :
    ∀ ws size, size - ws.length = k → padLoop ws size = ws ++ List.replicate k 0 := by
  induction k with
  | zero =>
    intro ws size h
    unfold padLoop
    rw [if_neg (by omega)]
    simp
  | succ n ih =>
    intro ws size h
    unfold padLoop
    rw [if_pos (by omega)]
    rw [ih (ws ++ [0]) size (by simp; omega)]
    simp [List.replicate_succ]

/-- Matching a keyword succeeds exactly on lines starting with it. -/
theorem expectStr_eq (kw : List Char) :
    ∀ cs r, expectStr kw cs = some r → cs = kw ++ r := by
  induction kw with
  | nil =>
    intro cs r h
    simp only [expectStr, Option.some_inj] at h
    simp [h]
  | cons k ks ih =>
    intro cs r h
    cases cs with
    | nil => simp [expectStr, expectChar] at h
    | cons x xs =>
      simp only [expectStr, expectChar] at h
      by_cases hx : x = k
      · rw [if_pos hx] at h
        rw [List.cons_append, ← ih xs r h, hx]
      · rw [if_neg hx] at h
        exact absurd h (by simp)

/-- Matching one literal character peels it off the line. -/
theorem expectChar_eq (c : Char) : ∀ cs r, expectChar c cs = some r → cs = c :: r := by
  intro cs r h
  cases cs with
  | nil => simp [expectChar] at h
  | cons x xs =>
    simp only [expectChar] at h
    by_cases hx : x = c
    · rw [if_pos hx] at h
      simp only [Option.some_inj] at h
      rw [hx, h]
    · rw [if_neg hx] at h
      exact absurd h (by simp)

/-- Skipping whitespace twice is skipping it once. -/
theorem skipWs_idem (cs : List Char) : skipWs (skipWs cs) = skipWs cs := by
  unfold skipWs
  induction cs with
  | nil => rfl
  | cons c t ih =>
    by_cases hc : isWs c = true
    · simp [List.dropWhile_cons, hc, ih]
    · simp only [Bool.not_eq_true] at hc
      simp [List.dropWhile_cons, hc]

/-- The head surviving the whitespace skip is not whitespace. -/
theorem skipWs_head_not_ws : ∀ cs x rest, skipWs cs = x :: rest → isWs x = false := by
  intro cs
  induction cs with
  | nil => intro x rest h; simp [skipWs] at h
  | cons c t ih =>
    intro x rest h
    by_cases hc : isWs c = true
    · simp only [skipWs, List.dropWhile_cons, hc, if_true] at h
      exact ih x rest h
    · simp only [Bool.not_eq_true] at hc
      simp only [skipWs, List.dropWhile_cons, hc, Bool.false_eq_true, if_false,
        List.cons.injEq] at h
      rw [← h.1]
      exact hc

/-- Skipping whitespace over a non-whitespace head is the identity. -/
theorem skipWs_cons_not_ws (c : Char) (rest : List Char) (h : isWs c = false) :
    skipWs (c :: rest) = c :: rest := by
  simp [skipWs, List.dropWhile_cons, h]

/-- Skipping whitespace consumes a whitespace head. -/
theorem skipWs_cons_ws (c : Char) (rest : List Char) (h : isWs c = true) :
    skipWs (c :: rest) = skipWs rest := by
  simp [skipWs, List.dropWhile_cons, h]

/-- A whitespace character is not a word character. -/
theorem ws_not_word (c : Char) (h : isWs c = true) : isWordChar c = false := by
  simp only [isWs, Bool.or_eq_true, beq_iff_eq] at h
  rcases h with ((((h | h) | h) | h) | h) | h <;> subst h <;> decide

/-- The word run of a keyword followed by a non-word boundary is the keyword. -/
theorem takeWhile_kw (kw : List Char) (hkw : ∀ c ∈ kw, isWordChar c = true) :
    ∀ r, (r = [] ∨ ∃ c r2, r = c :: r2 ∧ isWordChar c = false) →
      (kw ++ r).takeWhile isWordChar = kw ∧ (kw ++ r).dropWhile isWordChar = r := by
  induction kw with
  | nil =>
    intro r hr
    rcases hr with rfl | ⟨c, r2, rfl, hc⟩
    · simp
    · simp [List.takeWhile_cons, List.dropWhile_cons, hc]
  | cons k ks ih =>
    intro r hr
    have hk : isWordChar k = true := hkw k (by simp)
    have ihr := ih (fun c hc => hkw c (by simp [hc])) r hr
    simp [List.takeWhile_cons, List.dropWhile_cons, hk, ihr.1, ihr.2]

/-- A line end or comment after whitespace: the remaining characters are empty
or start with two slashes. -/
theorem comEndP_skipWs (r : List Char) (h : comEndP r = true) :
    skipWs r = [] ∨ ∃ rest, skipWs r = '/' :: '/' :: rest := by
  unfold comEndP at h
  cases hs : skipWs r with
  | nil => exact Or.inl rfl
  | cons c1 t1 =>
    rw [hs] at h
    cases t1 with
    | nil => simp at h
    | cons c2 t2 =>
      simp only [Bool.and_eq_true, beq_iff_eq] at h
      exact Or.inr ⟨t2, by rw [h.1.1, h.1.2]⟩

/-- A keyword whose word run is closed off by the rest of the line determines
the leading token and the tail after it. -/
theorem kwStart (kw cs r : List Char) (hkw : ∀ c ∈ kw, isWordChar c = true)
    (h1 : expectStr kw (skipWs cs) = some r)
    (hr : r = [] ∨ ∃ c r2, r = c :: r2 ∧ isWordChar c = false) :
    leadTokOf cs = kw ∧ afterTokOf cs = skipWs r := by
  have he := expectStr_eq kw (skipWs cs) r h1
  have ht := takeWhile_kw kw hkw r hr
  constructor
  · unfold leadTokOf
    rw [he, ht.1]
  · unfold afterTokOf
    rw [he, ht.2]

/-- Inversion of the one-or-more whitespace match. -/
theorem reqWs_shape (r r2 : List Char) (h : reqWs r = some r2) :
    ∃ c rest, r = c :: rest ∧ isWs c = true ∧ r2 = skipWs rest := by
  cases r with
  | nil => simp [reqWs] at h
  | cons c rest =>
    simp only [reqWs] at h
    by_cases hc : isWs c = true
    · rw [if_pos hc] at h
      simp only [Option.some_inj] at h
      exact ⟨c, rest, rfl, hc, h.symm⟩
    · rw [if_neg hc] at h
      exact absurd h (by simp)

/-- A successful register match starts with the letter x after whitespace. -/
theorem regP_head (r2 : List Char) (h : (regP r2).isSome = true) :
    (skipWs r2).head? = some 'x' := by
  simp only [regP, Option.isSome_iff_exists, Option.bind_eq_some] at h
  obtain ⟨v, a, ha, _⟩ := h
  rw [expectChar_eq 'x' (skipWs r2) a ha]
  rfl

/-- Shared leading shape of the eight keyword-and-registers patterns: the
keyword is the leading token and the first character after it is an x. -/
theorem kwRegSig (kw cs : List Char) (hkw : ∀ c ∈ kw, isWordChar c = true)
    (r1 r2 : List Char) (h1 : expectStr kw (skipWs cs) = some r1)
    (h2 : reqWs r1 = some r2) (h3 : (regP r2).isSome = true) :
    leadTokOf cs = kw ∧ (afterTokOf cs).head? = some 'x' := by
  obtain ⟨c, rest, rfl, hc, hr2⟩ := reqWs_shape r1 r2 h2
  have hk := kwStart kw cs (c :: rest) hkw h1
    (Or.inr ⟨c, rest, rfl, ws_not_word c hc⟩)
  refine ⟨hk.1, ?_⟩
  rw [hk.2, skipWs_cons_ws c rest hc, ← skipWs_idem rest, ← hr2]
  exact regP_head r2 h3

/-- Signature of a matched ld line: leading token ld, then a register. -/
theorem ldRec_sig (cs : List Char) (h : (ldRec cs).isSome = true) :
    leadTokOf cs = ['l', 'd'] ∧ (afterTokOf cs).head? = some 'x' := by
  simp only [ldRec, Option.isSome_iff_exists, Option.bind_eq_some] at h
  obtain ⟨v, r1, h1, r2, h2, p1, h3, _⟩ := h
  exact kwRegSig ['l', 'd'] cs (by decide) r1 r2 h1 h2 (by rw [h3]; rfl)

/-- Signature of a matched sd line: leading token sd, then a register. -/
theorem sdRec_sig (cs : List Char) (h : (sdRec cs).isSome = true) :
    leadTokOf cs = ['s', 'd'] ∧ (afterTokOf cs).head? = some 'x' := by
  simp only [sdRec, Option.isSome_iff_exists, Option.bind_eq_some] at h
  obtain ⟨v, r1, h1, r2, h2, p1, h3, _⟩ := h
  exact kwRegSig ['s', 'd'] cs (by decide) r1 r2 h1 h2 (by rw [h3]; rfl)

/-- Signature of a matched three-register line: the keyword is the leading
token and a register follows. -/
theorem rrrM_sig (kw cs : List Char) (hkw : ∀ c ∈ kw, isWordChar c = true)
    (h : (rrrM kw cs).isSome = true) :
    leadTokOf cs = kw ∧ (afterTokOf cs).head? = some 'x' := by
  simp only [rrrM, Option.isSome_iff_exists, Option.bind_eq_some] at h
  obtain ⟨v, r1, h1, r2, h2, p1, h3, _⟩ := h
  exact kwRegSig kw cs hkw r1 r2 h1 h2 (by rw [h3]; rfl)

/-- Signature of a matched branch line: the keyword is the leading token and a
register follows. -/
theorem brM_sig (kw cs : List Char) (hkw : ∀ c ∈ kw, isWordChar c = true)
    (h : (brM kw cs).isSome = true) :
    leadTokOf cs = kw ∧ (afterTokOf cs).head? = some 'x' := by
  simp only [brM, Option.isSome_iff_exists, Option.bind_eq_some] at h
  obtain ⟨v, r1, h1, r2, h2, p1, h3, _⟩ := h
  exact kwRegSig kw cs hkw r1 r2 h1 h2 (by rw [h3]; rfl)

/-- Signature of a matched label-definition line: a colon follows the leading
word run. -/
theorem labelRec_sig (cs : List Char) (h : (labelRec cs).isSome = true) :
    (afterTokOf cs).head? = some ':' := by
  simp only [labelRec, Option.isSome_iff_exists, Option.bind_eq_some] at h
  obtain ⟨v, p, hp, r, hr, _⟩ := h
  have hp2 : p.2 = afterTokOf cs := by
    simp only [labP] at hp
    cases htw : (skipWs cs).takeWhile isWordChar with
    | nil => rw [htw] at hp; simp at hp
    | cons d ds =>
      rw [htw] at hp
      simp only [Option.some_inj] at hp
      rw [← hp]
      rfl
  rw [expectChar_eq ':' p.2 r hr] at hp2
  rw [← hp2]
  rfl

/-- Signature of a matched nop line: leading token nop, and nothing but a
comment or the line end follows, in particular no colon. -/
theorem nopRec_sig (cs : List Char) (h : nopRec cs = true) :
    leadTokOf cs = ['n', 'o', 'p'] ∧ (afterTokOf cs).head? ≠ some ':' := by
  unfold nopRec at h
  cases hstr : expectStr ['n', 'o', 'p'] (skipWs cs) with
  | none => rw [hstr] at h; exact absurd h (by simp)
  | some r =>
    rw [hstr] at h
    have hsk := comEndP_skipWs r h
    have hr : r = [] ∨ ∃ c r2, r = c :: r2 ∧ isWordChar c = false := by
      cases r with
      | nil => exact Or.inl rfl
      | cons c r2 =>
        refine Or.inr ⟨c, r2, rfl, ?_⟩
        by_cases hc : isWs c = true
        · exact ws_not_word c hc
        · have hskip : skipWs (c :: r2) = c :: r2 :=
            skipWs_cons_not_ws c r2 (by simpa using hc)
          rcases hsk with h1 | ⟨rest, h2⟩
          · rw [hskip] at h1
            exact absurd h1 (by simp)
          · rw [hskip] at h2
            rw [List.cons.injEq] at h2
            rw [h2.1]
            decide
    have hk := kwStart ['n', 'o', 'p'] cs r (by decide) hstr hr
    refine ⟨hk.1, ?_⟩
    rw [hk.2]
    rcases hsk with h1 | ⟨rest, h2⟩
    · rw [h1]
      simp
    · rw [h2]
      simp

/-- A list of booleans in which every pair has a false member holds at most one
true. -/
theorem count_le_one (l : List Bool)
    (hp : l.Pairwise (fun a b => a = false ∨ b = false)) : l.count true ≤ 1 := by
  induction l with
  | nil => simp
  | cons b tl ih =>
    rw [List.pairwise_cons] at hp
    obtain ⟨hb, htl⟩ := hp
    cases b with
    | false =>
      rw [List.count_cons]
      simpa using ih htl
    | true =>
      have hz : tl.count true = 0 := by
        rw [List.count_eq_zero]
        intro hmem
        rcases hb true hmem with h | h
        · exact absurd h (by simp)
        · exact absurd h (by simp)
      rw [List.count_cons, hz]
      simp

/-- Two booleans that are never simultaneously true have a false member. -/
theorem two_false (a b : Bool) (h : a = true → b = true → False) :
    a = false ∨ b = false := by
  cases a with
  | false => exact Or.inl rfl
  | true =>
    cases b with
    | false => exact Or.inr rfl
    | true => exact (h rfl rfl).elim

/-- C8: line recognition is mutually exclusive.  For every source line, at
most one of the ten patterns (nop, ld, sd, and, or, add, sub, beq, blt,
label definition) matches, so attempting the patterns in any order yields the
same classification as the order used by the code. -/
theorem C8_recognition_mutually_exclusive : ∀ cs : List Char, matchCount cs ≤ 1 := by
  intro cs
  unfold matchCount matchBools
  apply count_le_one
  refine List.Pairwise.cons ?p0 (List.Pairwise.cons ?p1 (List.Pairwise.cons ?p2 (List.Pairwise.cons ?p3 (List.Pairwise.cons ?p4 (List.Pairwise.cons ?p5 (List.Pairwise.cons ?p6 (List.Pairwise.cons ?p7 (List.Pairwise.cons ?p8 (List.Pairwise.cons ?p9 (List.Pairwise.nil))))))))))
  case p0 =>
    intro b hb
    simp only [List.mem_cons, List.not_mem_nil, or_false] at hb
    rcases hb with rfl | rfl | rfl | rfl | rfl | rfl | rfl | rfl | rfl
    · refine two_false _ _ (fun ha hb => ?_)
      have s1 := nopRec_sig cs ha
      have s2 := ldRec_sig cs hb
      have heq : (['n', 'o', 'p'] : List Char) = ['l', 'd'] := by rw [← s1.1, ← s2.1]
      exact absurd heq (by decide)
    · refine two_false _ _ (fun ha hb => ?_)
      have s1 := nopRec_sig cs ha
      have s2 := sdRec_sig cs hb
      have heq : (['n', 'o', 'p'] : List Char) = ['s', 'd'] := by rw [← s1.1, ← s2.1]
      exact absurd heq (by decide)
    · refine two_false _ _ (fun ha hb => ?_)
      have s1 := nopRec_sig cs ha
      have s2 := rrrM_sig ['a', 'n', 'd'] cs (by decide) hb
      have heq : (['n', 'o', 'p'] : List Char) = ['a', 'n', 'd'] := by rw [← s1.1, ← s2.1]
      exact absurd heq (by decide)
    · refine two_false _ _ (fun ha hb => ?_)
      have s1 := nopRec_sig cs ha
      have s2 := rrrM_sig ['o', 'r'] cs (by decide) hb
      have heq : (['n', 'o', 'p'] : List Char) = ['o', 'r'] := by rw [← s1.1, ← s2.1]
      exact absurd heq (by decide)
    · refine two_false _ _ (fun ha hb => ?_)
      have s1 := nopRec_sig cs ha
      have s2 := rrrM_sig ['a', 'd', 'd'] cs (by decide) hb
      have heq : (['n', 'o', 'p'] : List Char) = ['a', 'd', 'd'] := by rw [← s1.1, ← s2.1]
      exact absurd heq (by decide)
    · refine two_false _ _ (fun ha hb => ?_)
      have s1 := nopRec_sig cs ha
      have s2 := rrrM_sig ['s', 'u', 'b'] cs (by decide) hb
      have heq : (['n', 'o', 'p'] : List Char) = ['s', 'u', 'b'] := by rw [← s1.1, ← s2.1]
      exact absurd heq (by decide)
    · refine two_false _ _ (fun ha hb => ?_)
      have s1 := nopRec_sig cs ha
      have s2 := brM_sig ['b', 'e', 'q'] cs (by decide) hb
      have heq : (['n', 'o', 'p'] : List Char) = ['b', 'e', 'q'] := by rw [← s1.1, ← s2.1]
      exact absurd heq (by decide)
    · refine two_false _ _ (fun ha hb => ?_)
      have s1 := nopRec_sig cs ha
      have s2 := brM_sig ['b', 'l', 't'] cs (by decide) hb
      have heq : (['n', 'o', 'p'] : List Char) = ['b', 'l', 't'] := by rw [← s1.1, ← s2.1]
      exact absurd heq (by decide)
    · refine two_false _ _ (fun ha hb => ?_)
      exact (nopRec_sig cs ha).2 (labelRec_sig cs hb)
  case p1 =>
    intro b hb
    simp only [List.mem_cons, List.not_mem_nil, or_false] at hb
    rcases hb with rfl | rfl | rfl | rfl | rfl | rfl | rfl | rfl
    · refine two_false _ _ (fun ha hb => ?_)
      have s1 := ldRec_sig cs ha
      have s2 := sdRec_sig cs hb
      have heq : (['l', 'd'] : List Char) = ['s', 'd'] := by rw [← s1.1, ← s2.1]
      exact absurd heq (by decide)
    · refine two_false _ _ (fun ha hb => ?_)
      have s1 := ldRec_sig cs ha
      have s2 := rrrM_sig ['a', 'n', 'd'] cs (by decide) hb
      have heq : (['l', 'd'] : List Char) = ['a', 'n', 'd'] := by rw [← s1.1, ← s2.1]
      exact absurd heq (by decide)
    · refine two_false _ _ (fun ha hb => ?_)
      have s1 := ldRec_sig cs ha
      have s2 := rrrM_sig ['o', 'r'] cs (by decide) hb
      have heq : (['l', 'd'] : List Char) = ['o', 'r'] := by rw [← s1.1, ← s2.1]
      exact absurd heq (by decide)
    · refine two_false _ _ (fun ha hb => ?_)
      have s1 := ldRec_sig cs ha
      have s2 := rrrM_sig ['a', 'd', 'd'] cs (by decide) hb
      have heq : (['l', 'd'] : List Char) = ['a', 'd', 'd'] := by rw [← s1.1, ← s2.1]
      exact absurd heq (by decide)
    · refine two_false _ _ (fun ha hb => ?_)
      have s1 := ldRec_sig cs ha
      have s2 := rrrM_sig ['s', 'u', 'b'] cs (by decide) hb
      have heq : (['l', 'd'] : List Char) = ['s', 'u', 'b'] := by rw [← s1.1, ← s2.1]
      exact absurd heq (by decide)
    · refine two_false _ _ (fun ha hb => ?_)
      have s1 := ldRec_sig cs ha
      have s2 := brM_sig ['b', 'e', 'q'] cs (by decide) hb
      have heq : (['l', 'd'] : List Char) = ['b', 'e', 'q'] := by rw [← s1.1, ← s2.1]
      exact absurd heq (by decide)
    · refine two_false _ _ (fun ha hb => ?_)
      have s1 := ldRec_sig cs ha
      have s2 := brM_sig ['b', 'l', 't'] cs (by decide) hb
      have heq : (['l', 'd'] : List Char) = ['b', 'l', 't'] := by rw [← s1.1, ← s2.1]
      exact absurd heq (by decide)
    · refine two_false _ _ (fun ha hb => ?_)
      have s1 := ldRec_sig cs ha
      have s2 := labelRec_sig cs hb
      have heq : (some 'x' : Option Char) = some ':' := by rw [← s1.2, ← s2]
      exact absurd heq (by decide)
  case p2 =>
    intro b hb
    simp only [List.mem_cons, List.not_mem_nil, or_false] at hb
    rcases hb with rfl | rfl | rfl | rfl | rfl | rfl | rfl
    · refine two_false _ _ (fun ha hb => ?_)
      have s1 := sdRec_sig cs ha
      have s2 := rrrM_sig ['a', 'n', 'd'] cs (by decide) hb
      have heq : (['s', 'd'] : List Char) = ['a', 'n', 'd'] := by rw [← s1.1, ← s2.1]
      exact absurd heq (by decide)
    · refine two_false _ _ (fun ha hb => ?_)
      have s1 := sdRec_sig cs ha
      have s2 := rrrM_sig ['o', 'r'] cs (by decide) hb
      have heq : (['s', 'd'] : List Char) = ['o', 'r'] := by rw [← s1.1, ← s2.1]
      exact absurd heq (by decide)
    · refine two_false _ _ (fun ha hb => ?_)
      have s1 := sdRec_sig cs ha
      have s2 := rrrM_sig ['a', 'd', 'd'] cs (by decide) hb
      have heq : (['s', 'd'] : List Char) = ['a', 'd', 'd'] := by rw [← s1.1, ← s2.1]
      exact absurd heq (by decide)
    · refine two_false _ _ (fun ha hb => ?_)
      have s1 := sdRec_sig cs ha
      have s2 := rrrM_sig ['s', 'u', 'b'] cs (by decide) hb
      have heq : (['s', 'd'] : List Char) = ['s', 'u', 'b'] := by rw [← s1.1, ← s2.1]
      exact absurd heq (by decide)
    · refine two_false _ _ (fun ha hb => ?_)
      have s1 := sdRec_sig cs ha
      have s2 := brM_sig ['b', 'e', 'q'] cs (by decide) hb
      have heq : (['s', 'd'] : List Char) = ['b', 'e', 'q'] := by rw [← s1.1, ← s2.1]
      exact absurd heq (by decide)
    · refine two_false _ _ (fun ha hb => ?_)
      have s1 := sdRec_sig cs ha
      have s2 := brM_sig ['b', 'l', 't'] cs (by decide) hb
      have heq : (['s', 'd'] : List Char) = ['b', 'l', 't'] := by rw [← s1.1, ← s2.1]
      exact absurd heq (by decide)
    · refine two_false _ _ (fun ha hb => ?_)
      have s1 := sdRec_sig cs ha
      have s2 := labelRec_sig cs hb
      have heq : (some 'x' : Option Char) = some ':' := by rw [← s1.2, ← s2]
      exact absurd heq (by decide)
  case p3 =>
    intro b hb
    simp only [List.mem_cons, List.not_mem_nil, or_false] at hb
    rcases hb with rfl | rfl | rfl | rfl | rfl | rfl
    · refine two_false _ _ (fun ha hb => ?_)
      have s1 := rrrM_sig ['a', 'n', 'd'] cs (by decide) ha
      have s2 := rrrM_sig ['o', 'r'] cs (by decide) hb
      have heq : (['a', 'n', 'd'] : List Char) = ['o', 'r'] := by rw [← s1.1, ← s2.1]
      exact absurd heq (by decide)
    · refine two_false _ _ (fun ha hb => ?_)
      have s1 := rrrM_sig ['a', 'n', 'd'] cs (by decide) ha
      have s2 := rrrM_sig ['a', 'd', 'd'] cs (by decide) hb
      have heq : (['a', 'n', 'd'] : List Char) = ['a', 'd', 'd'] := by rw [← s1.1, ← s2.1]
      exact absurd heq (by decide)
    · refine two_false _ _ (fun ha hb => ?_)
      have s1 := rrrM_sig ['a', 'n', 'd'] cs (by decide) ha
      have s2 := rrrM_sig ['s', 'u', 'b'] cs (by decide) hb
      have heq : (['a', 'n', 'd'] : List Char) = ['s', 'u', 'b'] := by rw [← s1.1, ← s2.1]
      exact absurd heq (by decide)
    · refine two_false _ _ (fun ha hb => ?_)
      have s1 := rrrM_sig ['a', 'n', 'd'] cs (by decide) ha
      have s2 := brM_sig ['b', 'e', 'q'] cs (by decide) hb
      have heq : (['a', 'n', 'd'] : List Char) = ['b', 'e', 'q'] := by rw [← s1.1, ← s2.1]
      exact absurd heq (by decide)
    · refine two_false _ _ (fun ha hb => ?_)
      have s1 := rrrM_sig ['a', 'n', 'd'] cs (by decide) ha
      have s2 := brM_sig ['b', 'l', 't'] cs (by decide) hb
      have heq : (['a', 'n', 'd'] : List Char) = ['b', 'l', 't'] := by rw [← s1.1, ← s2.1]
      exact absurd heq (by decide)
    · refine two_false _ _ (fun ha hb => ?_)
      have s1 := rrrM_sig ['a', 'n', 'd'] cs (by decide) ha
      have s2 := labelRec_sig cs hb
      have heq : (some 'x' : Option Char) = some ':' := by rw [← s1.2, ← s2]
      exact absurd heq (by decide)
  case p4 =>
    intro b hb
    simp only [List.mem_cons, List.not_mem_nil, or_false] at hb
    rcases hb with rfl | rfl | rfl | rfl | rfl
    · refine two_false _ _ (fun ha hb => ?_)
      have s1 := rrrM_sig ['o', 'r'] cs (by decide) ha
      have s2 := rrrM_sig ['a', 'd', 'd'] cs (by decide) hb
      have heq : (['o', 'r'] : List Char) = ['a', 'd', 'd'] := by rw [← s1.1, ← s2.1]
      exact absurd heq (by decide)
    · refine two_false _ _ (fun ha hb => ?_)
      have s1 := rrrM_sig ['o', 'r'] cs (by decide) ha
      have s2 := rrrM_sig ['s', 'u', 'b'] cs (by decide) hb
      have heq : (['o', 'r'] : List Char) = ['s', 'u', 'b'] := by rw [← s1.1, ← s2.1]
      exact absurd heq (by decide)
    · refine two_false _ _ (fun ha hb => ?_)
      have s1 := rrrM_sig ['o', 'r'] cs (by decide) ha
      have s2 := brM_sig ['b', 'e', 'q'] cs (by decide) hb
      have heq : (['o', 'r'] : List Char) = ['b', 'e', 'q'] := by rw [← s1.1, ← s2.1]
      exact absurd heq (by decide)
    · refine two_false _ _ (fun ha hb => ?_)
      have s1 := rrrM_sig ['o', 'r'] cs (by decide) ha
      have s2 := brM_sig ['b', 'l', 't'] cs (by decide) hb
      have heq : (['o', 'r'] : List Char) = ['b', 'l', 't'] := by rw [← s1.1, ← s2.1]
      exact absurd heq (by decide)
    · refine two_false _ _ (fun ha hb => ?_)
      have s1 := rrrM_sig ['o', 'r'] cs (by decide) ha
      have s2 := labelRec_sig cs hb
      have heq : (some 'x' : Option Char) = some ':' := by rw [← s1.2, ← s2]
      exact absurd heq (by decide)
  case p5 =>
    intro b hb
    simp only [List.mem_cons, List.not_mem_nil, or_false] at hb
    rcases hb with rfl | rfl | rfl | rfl
    · refine two_false _ _ (fun ha hb => ?_)
      have s1 := rrrM_sig ['a', 'd', 'd'] cs (by decide) ha
      have s2 := rrrM_sig ['s', 'u', 'b'] cs (by decide) hb
      have heq : (['a', 'd', 'd'] : List Char) = ['s', 'u', 'b'] := by rw [← s1.1, ← s2.1]
      exact absurd heq (by decide)
    · refine two_false _ _ (fun ha hb => ?_)
      have s1 := rrrM_sig ['a', 'd', 'd'] cs (by decide) ha
      have s2 := brM_sig ['b', 'e', 'q'] cs (by decide) hb
      have heq : (['a', 'd', 'd'] : List Char) = ['b', 'e', 'q'] := by rw [← s1.1, ← s2.1]
      exact absurd heq (by decide)
    · refine two_false _ _ (fun ha hb => ?_)
      have s1 := rrrM_sig ['a', 'd', 'd'] cs (by decide) ha
      have s2 := brM_sig ['b', 'l', 't'] cs (by decide) hb
      have heq : (['a', 'd', 'd'] : List Char) = ['b', 'l', 't'] := by rw [← s1.1, ← s2.1]
      exact absurd heq (by decide)
    · refine two_false _ _ (fun ha hb => ?_)
      have s1 := rrrM_sig ['a', 'd', 'd'] cs (by decide) ha
      have s2 := labelRec_sig cs hb
      have heq : (some 'x' : Option Char) = some ':' := by rw [← s1.2, ← s2]
      exact absurd heq (by decide)
  case p6 =>
    intro b hb
    simp only [List.mem_cons, List.not_mem_nil, or_false] at hb
    rcases hb with rfl | rfl | rfl
    · refine two_false _ _ (fun ha hb => ?_)
      have s1 := rrrM_sig ['s', 'u', 'b'] cs (by decide) ha
      have s2 := brM_sig ['b', 'e', 'q'] cs (by decide) hb
      have heq : (['s', 'u', 'b'] : List Char) = ['b', 'e', 'q'] := by rw [← s1.1, ← s2.1]
      exact absurd heq (by decide)
    · refine two_false _ _ (fun ha hb => ?_)
      have s1 := rrrM_sig ['s', 'u', 'b'] cs (by decide) ha
      have s2 := brM_sig ['b', 'l', 't'] cs (by decide) hb
      have heq : (['s', 'u', 'b'] : List Char) = ['b', 'l', 't'] := by rw [← s1.1, ← s2.1]
      exact absurd heq (by decide)
    · refine two_false _ _ (fun ha hb => ?_)
      have s1 := rrrM_sig ['s', 'u', 'b'] cs (by decide) ha
      have s2 := labelRec_sig cs hb
      have heq : (some 'x' : Option Char) = some ':' := by rw [← s1.2, ← s2]
      exact absurd heq (by decide)
  case p7 =>
    intro b hb
    simp only [List.mem_cons, List.not_mem_nil, or_false] at hb
    rcases hb with rfl | rfl
    · refine two_false _ _ (fun ha hb => ?_)
      have s1 := brM_sig ['b', 'e', 'q'] cs (by decide) ha
      have s2 := brM_sig ['b', 'l', 't'] cs (by decide) hb
      have heq : (['b', 'e', 'q'] : List Char) = ['b', 'l', 't'] := by rw [← s1.1, ← s2.1]
      exact absurd heq (by decide)
    · refine two_false _ _ (fun ha hb => ?_)
      have s1 := brM_sig ['b', 'e', 'q'] cs (by decide) ha
      have s2 := labelRec_sig cs hb
      have heq : (some 'x' : Option Char) = some ':' := by rw [← s1.2, ← s2]
      exact absurd heq (by decide)
  case p8 =>
    intro b hb
    simp only [List.mem_cons, List.not_mem_nil, or_false] at hb
    rcases hb with rfl
    · refine two_false _ _ (fun ha hb => ?_)
      have s1 := brM_sig ['b', 'l', 't'] cs (by decide) ha
      have s2 := labelRec_sig cs hb
      have heq : (some 'x' : Option Char) = some ':' := by rw [← s1.2, ← s2]
      exact absurd heq (by decide)
  case p9 =>
    intro b hb
    exact absurd hb (List.not_mem_nil b)

/-- C7: the label resolver leaves every non-branch word bit-for-bit unchanged,
and on a branch word it changes only the immediate bit positions (bits 7-11 and
25-31): the opcode bits 0-6 and the funct3, rs1 and rs2 bits 12-24 of the
partially-encoded word survive unchanged, and no bits beyond the u32 range
appear. -/
theorem C7_resolver_frame (labels : List (List Char × Nat)) (i inst : Nat)
    (lblOpt : Option (List Char)) (w : Nat)
    (h : resolveStep labels i inst lblOpt = .ok w) :
    (lblOpt = none → w = inst) ∧
    w % 128 = inst % 128 ∧
    w / 4096 % 8192 = inst / 4096 % 8192 ∧
    (inst < 2 ^ 32 → w < 2 ^ 32) := by
  cases lblOpt with
  | none =>
    simp only [resolveStep, Except.ok.injEq] at h
    subst h
    exact ⟨fun _ => rfl, rfl, rfl, fun hi => hi⟩
  | some lbl =>
    refine ⟨fun hc => by exact absurd hc (by simp), ?_⟩
    simp only [resolveStep] at h
    cases hl : lookupLabel labels lbl with
    | none => simp only [hl] at h; exact absurd h (by simp)
    | some j =>
      simp only [hl] at h
      by_cases hc : usizeSub j i * 4 % 2 ^ 64 < 2 ^ 32
      · rw [if_pos hc] at h
        simp only [Except.ok.injEq] at h
        rw [← h, splice_decomp inst (usizeSub j i * 4 % 2 ^ 64)]
        have hq1 : usizeSub j i * 4 % 2 ^ 64 / 2048 % 2 +
            2 * (usizeSub j i * 4 % 2 ^ 64 / 2 % 16) < 32 := by omega
        have hv : inst / 128 % 32 |||
            (usizeSub j i * 4 % 2 ^ 64 / 2048 % 2 +
              2 * (usizeSub j i * 4 % 2 ^ 64 / 2 % 16)) < 32 := by
          have hb := Nat.or_lt_two_pow
            (show inst / 128 % 32 < 2 ^ 5 by omega) (show _ < 2 ^ 5 from hq1)
          simpa using hb
        refine ⟨by omega, by omega, fun hi => ?_⟩
        have hq2 : usizeSub j i * 4 % 2 ^ 64 / 32 % 64 +
            64 * (usizeSub j i * 4 % 2 ^ 64 / 4096 % 2) < 128 := by omega
        have ht : inst / 4096 / 8192 |||
            (usizeSub j i * 4 % 2 ^ 64 / 32 % 64 +
              64 * (usizeSub j i * 4 % 2 ^ 64 / 4096 % 2)) < 128 := by
          have hb := Nat.or_lt_two_pow
            (show inst / 4096 / 8192 < 2 ^ 7 by omega) (show _ < 2 ^ 7 from hq2)
          simpa using hb
        omega
      · rw [if_neg hc] at h
        exact absurd h (by simp)

/-- Witness for C7 at a concrete branch: beq x1, x2 at index 0 resolving to a
label at index 1 (offset 4). -/
theorem C7_resolver_frame_witness :
    (some ['L'] = (none : Option (List Char)) → (2130531 : Nat) = 2130019) ∧
    (2130531 : Nat) % 128 = 2130019 % 128 ∧
    (2130531 : Nat) / 4096 % 8192 = 2130019 / 4096 % 8192 ∧
    ((2130019 : Nat) < 2 ^ 32 → (2130531 : Nat) < 2 ^ 32) :=
  C7_resolver_frame [(['L'], 1)] 0 2130019 (some ['L']) 2130531 (by rfl)

/-- Decoding the four scrambled groups of a spliced branch word recovers the
four immediate chunks. -/
theorem b_imm_decode_splice (low mid b1 b2 b3 b4 : Nat) (hlow : low < 128)
    (hmid : mid < 8192) (h1 : b1 < 16) (h2 : b2 < 64) (h3 : b3 < 2) (h4 : b4 < 2) :
    b_imm_decode (low + (b3 + 2 * b1) * 128 + mid * 4096 + (b2 + 64 * b4) * 33554432) =
      b1 * 2 + b2 * 32 + b3 * 2048 + b4 * 4096 := by
  unfold b_imm_decode
  omega

/-- C2: for a branch at index i resolved against a label at index j within the
13-bit immediate range, the resolver splices imm = (j - i) * 4 into the word as
the four scrambled bit groups, and reconstructing the immediate from bit groups
11:8, 30:25, 7 and 31 of the resolved beq or blt word recovers (j - i) * 4. -/
theorem C2_scrambled_immediate_roundtrip (labels : List (List Char × Nat))
    (lbl : List Char) (i j rs1 rs2 : Nat) (h1 : rs1 < 32) (h2 : rs2 < 32)
    (hl : lookupLabel labels lbl = some j) (hij : i ≤ j) (hj : j < 2 ^ 64)
    (hfit : (j - i) * 4 < 8192) :
    (∃ w, resolveStep labels i (beq_word rs1 rs2) (some lbl) = .ok w ∧
      b_imm_decode w = (j - i) * 4) ∧
    (∃ w, resolveStep labels i (blt_word rs1 rs2) (some lbl) = .ok w ∧
      b_imm_decode w = (j - i) * 4) := by
  constructor
  · have hw := resolveStep_forward labels i j (beq_word rs1 rs2) lbl hl hij hj (by omega)
    have he := beq_word_eq rs1 rs2 h1 h2
    refine ⟨_, hw, ?_⟩
    rw [show beq_word rs1 rs2 / 128 % 32 = 0 by rw [he]; omega,
      show beq_word rs1 rs2 / 4096 / 8192 = 0 by rw [he]; omega,
      Nat.zero_or, Nat.zero_or]
    rw [b_imm_decode_splice (beq_word rs1 rs2 % 128) (beq_word rs1 rs2 / 4096 % 8192)
      ((j - i) * 4 / 2 % 16) ((j - i) * 4 / 32 % 64) ((j - i) * 4 / 2048 % 2)
      ((j - i) * 4 / 4096 % 2) (by omega) (by omega) (by omega) (by omega) (by omega)
      (by omega)]
    omega
  · have hw := resolveStep_forward labels i j (blt_word rs1 rs2) lbl hl hij hj (by omega)
    have he := blt_word_eq rs1 rs2 h1 h2
    refine ⟨_, hw, ?_⟩
    rw [show blt_word rs1 rs2 / 128 % 32 = 0 by rw [he]; omega,
      show blt_word rs1 rs2 / 4096 / 8192 = 0 by rw [he]; omega,
      Nat.zero_or, Nat.zero_or]
    rw [b_imm_decode_splice (blt_word rs1 rs2 % 128) (blt_word rs1 rs2 / 4096 % 8192)
      ((j - i) * 4 / 2 % 16) ((j - i) * 4 / 32 % 64) ((j - i) * 4 / 2048 % 2)
      ((j - i) * 4 / 4096 % 2) (by omega) (by omega) (by omega) (by omega) (by omega)
      (by omega)]
    omega

/-- Witness for C2: beq x5, x6 at index 0, label at index 2, offset 8. -/
theorem C2_scrambled_immediate_roundtrip_witness :
    (∃ w, resolveStep [(['L'], 2)] 0 (beq_word 5 6) (some ['L']) = .ok w ∧
      b_imm_decode w = (2 - 0) * 4) ∧
    (∃ w, resolveStep [(['L'], 2)] 0 (blt_word 5 6) (some ['L']) = .ok w ∧
      b_imm_decode w = (2 - 0) * 4) :=
  C2_scrambled_immediate_roundtrip [(['L'], 2)] ['L'] 0 2 5 6 (by norm_num)
    (by norm_num) (by rfl) (by norm_num) (by norm_num) (by norm_num)

/-- A line matching the nop pattern is neither empty nor a full-line comment. -/
theorem nopRec_nonempty_noncomment (cs : List Char) (h : nopRec cs = true) :
    cs.isEmpty = false ∧ cs.take 2 ≠ ['/', '/'] := by
  unfold nopRec at h
  cases hstr : expectStr ['n', 'o', 'p'] (skipWs cs) with
  | none => rw [hstr] at h; exact absurd h (by simp)
  | some r =>
    have he := expectStr_eq ['n', 'o', 'p'] (skipWs cs) r hstr
    constructor
    · cases cs with
      | nil => simp [skipWs] at he
      | cons c t => rfl
    · intro hc
      cases cs with
      | nil => simp at hc
      | cons c1 t1 =>
        cases t1 with
        | nil => simp [List.take] at hc
        | cons c2 t2 =>
          simp only [List.take, List.cons.injEq, and_true] at hc
          rw [hc.1, hc.2] at he
          rw [skipWs_cons_not_ws '/' _ (by decide)] at he
          simp only [List.cons_append, List.nil_append, List.cons.injEq] at he
          exact absurd he.1 (by decide)

/-- A nop line is pushed as the literal all-zero word with no label reference
(src/main.rs lines 62-63). -/
theorem processLine_nop (insts : List (Nat × Option (List Char)))
    (labels : List (List Char × Nat)) (line : List Char)
    (h : nopRec (trim line) = true) :
    processLine insts labels line = .ok (insts ++ [(0, none)], labels) := by
  have hn := nopRec_nonempty_noncomment (trim line) h
  unfold processLine
  rw [if_neg (by simp [hn.1]), if_neg hn.2, if_pos h]

/-- C3: for every supported mnemonic at in-range operand values, the opcode
bits 0-6, funct3 bits 12-14, funct7 bits 25-31 and the operand field
placements of the produced word match the encoding table of spec section 4.1:
nop contributes the all-zero word; ld has opcode 0000011 (3), funct3 011, rd
at bits 7-11, rs1 at bits 15-19 and the immediate at bits 20-31; sd has
opcode 0100011 (35), funct3 011, the low five immediate bits at 7-11, rs1 at
15-19, rs2 at 20-24 and immediate bits 5-11 at 25-31; and, or, add, sub have
opcode 0110011 (51) with funct3 111, 110, 000, 000 and funct7 all zero except
sub, which sets bit 30 (funct7 0100000 = 32); beq and blt have opcode 1100011
(99) with funct3 000 and 100, rs1 at 15-19, rs2 at 20-24 and all immediate
bits (7-11 and 25-31) still zero. -/
theorem C3_encoding_table (rd rs1 rs2 imm : Nat) (h1 : rd < 32) (h2 : rs1 < 32)
    (h3 : rs2 < 32) (h4 : imm < 4096) :
    (∀ insts labels line, nopRec (trim line) = true →
      processLine insts labels line = .ok (insts ++ [(0, none)], labels)) ∧
    (ld_word rd imm rs1 % 128 = 3 ∧ ld_word rd imm rs1 / 128 % 32 = rd ∧
      ld_word rd imm rs1 / 4096 % 8 = 3 ∧ ld_word rd imm rs1 / 32768 % 32 = rs1 ∧
      ld_word rd imm rs1 / 1048576 = imm) ∧
    (sd_word rs2 imm rs1 % 128 = 35 ∧ sd_word rs2 imm rs1 / 128 % 32 = imm % 32 ∧
      sd_word rs2 imm rs1 / 4096 % 8 = 3 ∧ sd_word rs2 imm rs1 / 32768 % 32 = rs1 ∧
      sd_word rs2 imm rs1 / 1048576 % 32 = rs2 ∧
      sd_word rs2 imm rs1 / 33554432 = imm / 32) ∧
    (and_word rd rs1 rs2 % 128 = 51 ∧ and_word rd rs1 rs2 / 128 % 32 = rd ∧
      and_word rd rs1 rs2 / 4096 % 8 = 7 ∧ and_word rd rs1 rs2 / 32768 % 32 = rs1 ∧
      and_word rd rs1 rs2 / 1048576 % 32 = rs2 ∧ and_word rd rs1 rs2 / 33554432 = 0) ∧
    (or_word rd rs1 rs2 % 128 = 51 ∧ or_word rd rs1 rs2 / 128 % 32 = rd ∧
      or_word rd rs1 rs2 / 4096 % 8 = 6 ∧ or_word rd rs1 rs2 / 32768 % 32 = rs1 ∧
      or_word rd rs1 rs2 / 1048576 % 32 = rs2 ∧ or_word rd rs1 rs2 / 33554432 = 0) ∧
    (add_word rd rs1 rs2 % 128 = 51 ∧ add_word rd rs1 rs2 / 128 % 32 = rd ∧
      add_word rd rs1 rs2 / 4096 % 8 = 0 ∧ add_word rd rs1 rs2 / 32768 % 32 = rs1 ∧
      add_word rd rs1 rs2 / 1048576 % 32 = rs2 ∧ add_word rd rs1 rs2 / 33554432 = 0) ∧
    (sub_word rd rs1 rs2 % 128 = 51 ∧ sub_word rd rs1 rs2 / 128 % 32 = rd ∧
      sub_word rd rs1 rs2 / 4096 % 8 = 0 ∧ sub_word rd rs1 rs2 / 32768 % 32 = rs1 ∧
      sub_word rd rs1 rs2 / 1048576 % 32 = rs2 ∧ sub_word rd rs1 rs2 / 33554432 = 32) ∧
    (beq_word rs1 rs2 % 128 = 99 ∧ beq_word rs1 rs2 / 4096 % 8 = 0 ∧
      beq_word rs1 rs2 / 32768 % 32 = rs1 ∧ beq_word rs1 rs2 / 1048576 % 32 = rs2 ∧
      beq_word rs1 rs2 / 128 % 32 = 0 ∧ beq_word rs1 rs2 / 33554432 = 0) ∧
    (blt_word rs1 rs2 % 128 = 99 ∧ blt_word rs1 rs2 / 4096 % 8 = 4 ∧
      blt_word rs1 rs2 / 32768 % 32 = rs1 ∧ blt_word rs1 rs2 / 1048576 % 32 = rs2 ∧
      blt_word rs1 rs2 / 128 % 32 = 0 ∧ blt_word rs1 rs2 / 33554432 = 0) := by
  refine ⟨processLine_nop, ?_, ?_, ?_, ?_, ?_, ?_, ?_, ?_⟩
  · rw [ld_word_eq rd imm rs1 h1 h4 h2]
    omega
  · rw [sd_word_eq rs2 imm rs1 h3 h4 h2]
    have hsplit : 35 + imm % 32 * 128 + 12288 + rs1 * 32768 + rs2 * 1048576 +
        imm / 32 % 128 * 33554432 =
        35 + imm % 32 * 128 + 12288 + rs1 * 32768 +
          (rs2 + imm / 32 % 128 * 32) * 1048576 := by
      ring
    refine ⟨by omega, by omega, by omega, by omega, ?_, ?_⟩
    · rw [hsplit, Nat.add_mul_div_right _ _ (by norm_num : (0 : Nat) < 1048576),
        Nat.div_eq_of_lt (by omega)]
      omega
    · rw [Nat.add_mul_div_right _ _ (by norm_num : (0 : Nat) < 33554432),
        Nat.div_eq_of_lt (by omega)]
      omega
  · rw [and_word_eq rd rs1 rs2 h1 h2 h3]
    omega
  · rw [or_word_eq rd rs1 rs2 h1 h2 h3]
    omega
  · rw [add_word_eq rd rs1 rs2 h1 h2 h3]
    omega
  · rw [sub_word_eq rd rs1 rs2 h1 h2 h3]
    omega
  · rw [beq_word_eq rs1 rs2 h2 h3]
    omega
  · rw [blt_word_eq rs1 rs2 h2 h3]
    omega

/-- Witness for C3 at the operand values of the unit tests of src/main.rs:
rd = 5, rs1 = 6, rs2 = 7, imm = 40. -/
theorem C3_encoding_table_witness :
    ld_word 5 40 6 % 128 = 3 ∧ ld_word 5 40 6 / 1048576 = 40 ∧
    sub_word 5 6 7 / 33554432 = 32 ∧ and_word 5 6 7 / 4096 % 8 = 7 ∧
    processLine [] [] "nop".toList = .ok ([(0, none)], []) := by
  have h := C3_encoding_table 5 6 7 40 (by norm_num) (by norm_num) (by norm_num)
    (by norm_num)
  exact ⟨h.2.1.1, h.2.1.2.2.2.2, h.2.2.2.2.2.2.1.2.2.2.2.2, h.2.2.2.1.2.2.1,
    h.1 [] [] "nop".toList (by rfl)⟩

/-- A trimmed, non-empty, non-comment line matching none of the ten patterns
hits the Invalid Instruction panic carrying that line (src/main.rs lines
82-84). -/
theorem processLine_invalid (insts : List (Nat × Option (List Char)))
    (labels : List (List Char × Nat)) (line : List Char)
    (hne : trim line ≠ []) (hcm : (trim line).take 2 ≠ ['/', '/'])
    (h0 : nopRec (trim line) = false) (h1 : ldRec (trim line) = none)
    (h2 : sdRec (trim line) = none) (h3 : andRec (trim line) = none)
    (h4 : orRec (trim line) = none) (h5 : addRec (trim line) = none)
    (h6 : subRec (trim line) = none) (h7 : beqRec (trim line) = none)
    (h8 : bltRec (trim line) = none) (h9 : labelRec (trim line) = none) :
    processLine insts labels line = .error (.invalidInstruction (trim line)) := by
  have he : (trim line).isEmpty = false := by
    cases ht : trim line with
    | nil => exact absurd ht hne
    | cons c t => rfl
  unfold processLine
  rw [if_neg (by simp [he]), if_neg hcm, if_neg (by simp [h0])]
  simp only [h1, h2, h3, h4, h5, h6, h7, h8, h9]

/-- C5: a non-empty, non-comment source line matching none of the ten grammars
makes the whole run abort: the pipeline returns an error (so no output words
are produced), and when the preceding lines pass the recognizer the error is
the Invalid Instruction panic identifying the offending trimmed line verbatim,
regardless of the following lines and of any padding request. -/
theorem C5_unrecognized_line_aborts (line : List Char) (pre post : List (List Char))
    (padding : Option Nat)
    (hne : trim line ≠ []) (hcm : (trim line).take 2 ≠ ['/', '/'])
    (h0 : nopRec (trim line) = false) (h1 : ldRec (trim line) = none)
    (h2 : sdRec (trim line) = none) (h3 : andRec (trim line) = none)
    (h4 : orRec (trim line) = none) (h5 : addRec (trim line) = none)
    (h6 : subRec (trim line) = none) (h7 : beqRec (trim line) = none)
    (h8 : bltRec (trim line) = none) (h9 : labelRec (trim line) = none) :
    (∃ e, assemble (pre ++ line :: post) padding = .error e) ∧
    (∀ insts labels, firstPass pre [] [] = .ok (insts, labels) →
      assemble (pre ++ line :: post) padding =
        .error (.invalidInstruction (trim line))) := by
  have hinv : ∀ insts labels, processLine insts labels line =
      .error (.invalidInstruction (trim line)) :=
    fun insts labels =>
      processLine_invalid insts labels line hne hcm h0 h1 h2 h3 h4 h5 h6 h7 h8 h9
  constructor
  · unfold assemble
    rw [firstPass_append]
    cases hfp : firstPass pre [] [] with
    | error e => exact ⟨e, rfl⟩
    | ok st =>
      obtain ⟨insts, labels⟩ := st
      refine ⟨.invalidInstruction (trim line), ?_⟩
      dsimp only
      unfold firstPass
      rw [hinv insts labels]
  · intro insts labels hfp
    unfold assemble
    rw [firstPass_append, hfp]
    dsimp only
    unfold firstPass
    rw [hinv insts labels]

/-- Witness for C5: an unsupported mov line between a nop and an add aborts
the run naming the mov line. -/
theorem C5_unrecognized_line_aborts_witness :
    assemble ["nop".toList, "mov x1, x2".toList, "add x1,x2,x3".toList] none =
      .error (.invalidInstruction "mov x1, x2".toList) := by
  have h := C5_unrecognized_line_aborts "mov x1, x2".toList ["nop".toList]
    ["add x1,x2,x3".toList] none (by decide) (by decide) (by rfl) (by rfl) (by rfl)
    (by rfl) (by rfl) (by rfl) (by rfl) (by rfl) (by rfl) (by rfl)
  exact h.2 [(0, none)] [] (by rfl)

/-- C6: a branch carrying a label absent from the completed label table makes
the resolver abort the whole translation whatever instructions precede or
follow it: the pass returns an error (no partial-success mode), and when the
preceding instructions resolve the error is the Invalid Label panic naming the
missing label. -/
theorem C6_undefined_label_aborts (labels : List (List Char × Nat))
    (lbl : List Char) (inst : Nat) (pre post : List (Nat × Option (List Char)))
    (hl : lookupLabel labels lbl = none) :
    (∃ e, transform_labels (pre ++ (inst, some lbl) :: post) labels = .error e) ∧
    (∀ ws, transformFrom labels 0 pre = .ok ws →
      transform_labels (pre ++ (inst, some lbl) :: post) labels =
        .error (.invalidLabel lbl)) := by
  have hstep : ∀ i, resolveStep labels i inst (some lbl) =
      .error (.invalidLabel lbl) := by
    intro i
    simp [resolveStep, hl]
  constructor
  · unfold transform_labels
    rw [transformFrom_append]
    cases hfp : transformFrom labels 0 pre with
    | error e => exact ⟨e, rfl⟩
    | ok ws =>
      refine ⟨.invalidLabel lbl, ?_⟩
      dsimp only
      unfold transformFrom
      rw [hstep (0 + pre.length)]
  · intro ws hws
    unfold transform_labels
    rw [transformFrom_append, hws]
    dsimp only
    unfold transformFrom
    rw [hstep (0 + pre.length)]

/-- Witness for C6: a branch on a missing label after one plain word. -/
theorem C6_undefined_label_aborts_witness :
    transform_labels [(0, none), (99, some ['M'])] [(['L'], 0)] =
      .error (.invalidLabel ['M']) := by
  have h := C6_undefined_label_aborts [(['L'], 0)] ['M'] 99 [(0, none)] []
    (by rfl)
  exact h.2 [0] (by rfl)

/-- C9: padding to n words on a k-word program appends exactly n - k zero
words after the resolved instructions when n > k, so the output has n words
with the original words as its prefix; when n < k the warning condition holds
and the padding loop leaves all k words unchanged (no truncation). -/
theorem C9_padding (ws : List Nat) (n : Nat) :
    (ws.length < n →
      padLoop ws n = ws ++ List.replicate (n - ws.length) 0 ∧
      (padLoop ws n).length = n ∧ (padLoop ws n).take ws.length = ws) ∧
    (n < ws.length → padWarning ws n = true ∧ padLoop ws n = ws) := by
  constructor
  · intro h
    have he := padLoop_eq (n - ws.length) ws n rfl
    refine ⟨he, ?_, ?_⟩
    · rw [he]
      simp only [List.length_append, List.length_replicate]
      omega
    · rw [he, List.take_left]
  · intro h
    constructor
    · simp only [padWarning, decide_eq_true_eq]
      exact h
    · have he := padLoop_eq 0 ws n (by omega)
      simpa using he

/-- Witness for C9: a 3-word program padded to 5 gains two zero words; a
request of 2 trips the warning and leaves the 3 words intact. -/
theorem C9_padding_witness :
    padLoop [1, 2, 3] 5 = [1, 2, 3, 0, 0] ∧
    padWarning [1, 2, 3] 2 = true ∧ padLoop [1, 2, 3] 2 = [1, 2, 3] := by
  have h5 := C9_padding [1, 2, 3] 5
  have h2 := C9_padding [1, 2, 3] 2
  refine ⟨?_, (h2.2 (by norm_num)).1, (h2.2 (by norm_num)).2⟩
  have he := (h5.1 (by norm_num)).1
  simpa using he

/-- The NUM pattern captures a run of digit characters only. -/
theorem numP_digits (cs ds r : List Char) (h : numP cs = some (ds, r)) :
    ds ≠ [] ∧ ∀ c ∈ ds, Char.isDigit c = true := by
  simp only [numP] at h
  cases htw : (skipWs cs).takeWhile Char.isDigit with
  | nil => rw [htw] at h; simp at h
  | cons d t =>
    rw [htw] at h
    simp only [Option.some_inj, Prod.mk.injEq] at h
    refine ⟨by rw [← h.1]; simp, ?_⟩
    intro c hc
    rw [← h.1] at hc
    rw [← htw] at hc
    exact List.mem_takeWhile_imp hc

/-- C10: the immediate literal of an ld or sd line is recognized only as a
bare run of decimal digits, and a load line whose immediate carries a sign or
a hexadecimal prefix matches no grammar and aborts the run as an unrecognized
instruction instead of being encoded. -/
theorem C10_immediates_bare_decimal :
    (∀ cs rd imm rs1, ldRec cs = some (rd, imm, rs1) →
      imm ≠ [] ∧ ∀ c ∈ imm, Char.isDigit c = true) ∧
    (∀ cs rs2 imm rs1, sdRec cs = some (rs2, imm, rs1) →
      imm ≠ [] ∧ ∀ c ∈ imm, Char.isDigit c = true) ∧
    processLine [] [] "ld x5, -8(x6)".toList =
      .error (.invalidInstruction "ld x5, -8(x6)".toList) ∧
    processLine [] [] "ld x5, 0x10(x6)".toList =
      .error (.invalidInstruction "ld x5, 0x10(x6)".toList) := by
  refine ⟨?_, ?_, by rfl, by rfl⟩
  · intro cs rd imm rs1 h
    simp only [ldRec, Option.bind_eq_some] at h
    obtain ⟨r1, _, r2, _, p1, _, r3, _, p2, hnum, rest⟩ := h
    have hd := numP_digits _ _ _ hnum
    have himm : p2.1 = imm := by
      rcases rest with ⟨r4, _, p3, _, r5, _, hif⟩
      by_cases hc : comEndP r5 = true
      · rw [if_pos hc] at hif
        simp only [Option.some_inj, Prod.mk.injEq] at hif
        exact hif.2.1
      · rw [if_neg hc] at hif
        exact absurd hif (by simp)
    rw [himm] at hd
    exact hd
  · intro cs rs2 imm rs1 h
    simp only [sdRec, Option.bind_eq_some] at h
    obtain ⟨r1, _, r2, _, p1, _, r3, _, p2, hnum, rest⟩ := h
    have hd := numP_digits _ _ _ hnum
    have himm : p2.1 = imm := by
      rcases rest with ⟨r4, _, p3, _, r5, _, hif⟩
      by_cases hc : comEndP r5 = true
      · rw [if_pos hc] at hif
        simp only [Option.some_inj, Prod.mk.injEq] at hif
        exact hif.2.1
      · rw [if_neg hc] at hif
        exact absurd hif (by simp)
    rw [himm] at hd
    exact hd

/-- Witness for C10 at the line ld x5, 40(x6): the captured immediate is the
digit run 40. -/
theorem C10_immediates_bare_decimal_witness :
    (['4', '0'] : List Char) ≠ [] ∧ ∀ c ∈ ['4', '0'], Char.isDigit c = true :=
  C10_immediates_bare_decimal.1 "ld x5, 40(x6)".toList '5' ['4', '0'] '6' (by rfl)

/-- C1: the spec states that imm = (j - i) * 4 is computed as a signed quantity
in an unsigned computation whose two's-complement wraparound makes backward
branches resolve to the correct 13-bit offset.  The code instead computes
j - i in usize: for a backward reference (j < i) the wrapped difference times
4 exceeds the u32 range and the try_into::\<u32>().unwrap() at src/main.rs
line 255 panics, so every backward branch aborts the run instead of resolving
to a negative offset.  Evaluation at the backward-reference program of spec
section 8 item 7 (branch at index 2, label at index 1, intended offset -4)
shows the abort; the forward variant of the same program resolves. -/
theorem C1_backward_branch_aborts :
    assemble ["add x1,x2,x3".toList, "Label:".toList, "nop".toList,
        "beq x1,x2,Label".toList] none = .error .offsetOverflow ∧
    assemble ["nop".toList, "beq x1,x2,Label".toList, "Label:".toList] none =
      .ok [0, 2130531] := by
  exact ⟨by rfl, by rfl⟩

/-- C4: the claim states that a register operand x followed by digits denoting
n (0 <= n <= 31) is parsed as n and placed in the 5-bit register field, so
that ld x31, 8(x6) encodes rd = 31.  The REG pattern of src/main.rs line 13
repeats a one-digit capture group, so the reported capture is only the last
digit: ld x31, 8(x6) is encoded with rd = 1 (word 8597635), not 31. -/
theorem C4_register_capture_truncated :
    processLine [] [] "ld x31, 8(x6)".toList = .ok ([(8597635, none)], []) ∧
    (8597635 : Nat) / 128 % 32 = 1 ∧ (1 : Nat) ≠ 31 := by
  exact ⟨by rfl, by norm_num, by norm_num⟩
